import Mathlib

/-! # Candle engine: physics step and mouse ownership stack

A shallow embedding of `src/systems/physics.c` and of the mouse ownership
stack of `src/candle.c`.

The C code computes with `float`.  The embedding is parametric in the scalar
arithmetic (`Scalar`): every C operator that the code applies to a `float`
is one operation of the class, so the control flow and the data flow of the
code are kept whatever the arithmetic is.  Three arithmetics are provided:

* `ℚ`   : exact arithmetic, no special values;
* `Flt` : exact rationals extended with `+∞`, `-∞` and a single `NaN`, with
  the IEEE-754 rules for the special values (`NaN` is unordered and differs
  from itself, `∞ - ∞ = NaN`, `0 * ∞ = NaN`).  Rounding, overflow and the
  sign of zero are not modelled;
* `F32` : single precision, the values of `Flt` with every operation rounded
  to the binary32 format.  The sign of zero is not modelled.
-/

namespace Candle

/-! ## Scalars -/

/-- The operations the code performs on `float` values. -/
class Scalar (F : Type) where
  /-- a decimal literal of the source (`0`, `1.0`, `0.20`) -/
  lit : ℚ → F
  /-- `a + b` -/
  add : F → F → F
  /-- `a - b` -/
  sub : F → F → F
  /-- `a * b` -/
  mul : F → F → F
  /-- `-a` -/
  neg : F → F
  /-- `a < b` -/
  lt : F → F → Bool
  /-- `a >= b` -/
  ge : F → F → Bool
  /-- `a == b` -/
  eq : F → F → Bool
  /-- `fmax(a, b)` -/
  fmax : F → F → F

/-- The laws of comparison that the collision code relies on; they hold for
IEEE-754 comparison as well as for exact arithmetic. -/
class LawfulScalar (F : Type) [Scalar F] : Prop where
  /-- `0 == 0` -/
  eq_zero_zero : Scalar.eq (Scalar.lit 0 : F) (Scalar.lit 0) = true
  /-- `1.0 == 0` is false -/
  eq_one_zero : Scalar.eq (Scalar.lit 1 : F) (Scalar.lit 0) = false
  /-- `a < 0` excludes `a >= 0` -/
  ge_of_lt : ∀ a : F, Scalar.lt a (Scalar.lit 0) = true → Scalar.ge a (Scalar.lit 0) = false
  /-- a value that differs from itself (`NaN`) absorbs addition -/
  add_nan : ∀ a b : F, Scalar.eq a a = false → Scalar.add a b = a

/-- Exact arithmetic. -/
instance instScalarRat : Scalar ℚ where
  lit q := q
  add a b := a + b
  sub a b := a - b
  mul a b := a * b
  neg a := -a
  lt a b := decide (a < b)
  ge a b := decide (b ≤ a)
  eq a b := decide (a = b)
  fmax a b := max a b

/-- Rationals extended with the IEEE-754 special values. -/
inductive Flt where
  | nan : Flt
  | ninf : Flt
  | pinf : Flt
  | fin (q : ℚ) : Flt
  deriving DecidableEq

namespace Flt

/-- Addition: `NaN` propagates and `∞ + -∞ = NaN`. -/
def add : Flt → Flt → Flt
  | nan, _ => nan
  | _, nan => nan
  | pinf, ninf => nan
  | ninf, pinf => nan
  | pinf, _ => pinf
  | _, pinf => pinf
  | ninf, _ => ninf
  | _, ninf => ninf
  | fin a, fin b => fin (a + b)

/-- Negation. -/
def neg : Flt → Flt
  | nan => nan
  | ninf => pinf
  | pinf => ninf
  | fin a => fin (-a)

/-- Subtraction, `a - b = a + (-b)`. -/
def sub (a b : Flt) : Flt := add a (neg b)

/-- Sign of an infinity times a finite factor: `0 * ∞ = NaN`. -/
def scaleInf (positive : Bool) (q : ℚ) : Flt :=
  if q = 0 then nan else if (0 < q) = positive then pinf else ninf

/-- Multiplication. -/
def mul : Flt → Flt → Flt
  | nan, _ => nan
  | _, nan => nan
  | pinf, pinf => pinf
  | ninf, ninf => pinf
  | pinf, ninf => ninf
  | ninf, pinf => ninf
  | pinf, fin q => scaleInf true q
  | fin q, pinf => scaleInf true q
  | ninf, fin q => scaleInf false q
  | fin q, ninf => scaleInf false q
  | fin a, fin b => fin (a * b)

/-- Comparison `a < b`; false as soon as one side is `NaN`. -/
def lt : Flt → Flt → Bool
  | nan, _ => false
  | _, nan => false
  | _, ninf => false
  | ninf, _ => true
  | pinf, _ => false
  | fin _, pinf => true
  | fin a, fin b => decide (a < b)

/-- Comparison `a == b`; false as soon as one side is `NaN`. -/
def eq : Flt → Flt → Bool
  | nan, _ => false
  | _, nan => false
  | a, b => decide (a = b)

/-- Comparison `a >= b`; false as soon as one side is `NaN`. -/
def ge (a b : Flt) : Bool := lt b a || eq a b

/-- The C `fmax`: the other argument when one is `NaN`. -/
def fmax (a b : Flt) : Flt :=
  match a, b with
  | nan, _ => b
  | _, nan => a
  | _, _ => if lt a b then b else a

/-- A value is finite when it is neither `NaN` nor an infinity. -/
def isFinite : Flt → Bool
  | fin _ => true
  | _ => false

end Flt

/-- Arithmetic with special values. -/
instance instScalarFlt : Scalar Flt where
  lit q := Flt.fin q
  add := Flt.add
  sub := Flt.sub
  mul := Flt.mul
  neg := Flt.neg
  lt := Flt.lt
  ge := Flt.ge
  eq := Flt.eq
  fmax := Flt.fmax

/-! ## Single precision

The arithmetic of the C type `float` on the usual targets: the IEEE-754
binary32 format, every operation rounded to nearest, ties to even, with
gradual underflow and overflow to an infinity.  A value is `NaN`, an
infinity, or a rational `m * 2 ^ e` with `m < 2 ^ 24` and `-149 ≤ e ≤ 104`.
The sign of zero is not modelled. -/

/-- A value of the C type `float`. -/
structure F32 where
  val : Flt
  deriving DecidableEq

namespace F32

/-- The exponent of the unit in the last place of the binary32 values next to
the positive rational `n / d`: the largest `e` from -149 to 104 with
`2 ^ (e + 23) ≤ n / d`, and -149 when there is none.  The candidate `j`
stands for `e = j - 148`, and the candidates that pass are the lowest ones. -/
def unit_exponent (n d : Nat) : Int :=
  (((List.range 253).filter
    (fun j => decide (2 ^ (j - 125) * d ≤ n * 2 ^ (125 - j)))).length : Int) - 149

/-- The integer nearest to `n / d`, the even one of the two when `n / d` lies
half-way. -/
def nearest_even (n d : Nat) : Nat :=
  if 2 * (n % d) < d then n / d
  else if d < 2 * (n % d) then n / d + 1
  else if n / d % 2 = 0 then n / d
  else n / d + 1

/-- The rational `n / d` in units of `2 ^ e`, rounded to an integer. -/
def significand (n d : Nat) (e : Int) : Nat :=
  if 0 ≤ e then nearest_even n (d * 2 ^ e.toNat) else nearest_even (n * 2 ^ (-e).toNat) d

/-- The rational `m * 2 ^ e`. -/
def scale (m : Nat) (e : Int) : ℚ :=
  if 0 ≤ e then ((m * 2 ^ e.toNat : Nat) : ℚ) else (m : ℚ) / ((2 ^ (-e).toNat : Nat) : ℚ)

/-- The magnitude of the binary32 value nearest to the positive rational
`n / d`, before the test for overflow. -/
def nearest (n d : Nat) : ℚ :=
  scale (significand n d (unit_exponent n d)) (unit_exponent n d)

/-- Rounding of a rational to binary32: to the nearest value, ties to the
even significand; a result of magnitude `2 ^ 128` or more is an infinity. -/
def round (q : ℚ) : Flt :=
  if q = 0 then Flt.fin 0
  else if (2 : ℚ) ^ 128 ≤ nearest q.num.natAbs q.den then
    (if 0 < q then Flt.pinf else Flt.ninf)
  else if 0 < q then Flt.fin (nearest q.num.natAbs q.den)
  else Flt.fin (-nearest q.num.natAbs q.den)

/-- The result of an operation: the exact result, rounded when it is finite. -/
def of (x : Flt) : F32 :=
  match x with
  | Flt.fin q => ⟨round q⟩
  | Flt.nan => ⟨Flt.nan⟩
  | Flt.pinf => ⟨Flt.pinf⟩
  | Flt.ninf => ⟨Flt.ninf⟩

end F32

/-- Single precision arithmetic: every sum, difference and product is the
exact one, rounded once. -/
instance instScalarF32 : Scalar F32 where
  lit q := F32.of (Flt.fin q)
  add a b := F32.of (Flt.add a.val b.val)
  sub a b := F32.of (Flt.sub a.val b.val)
  mul a b := F32.of (Flt.mul a.val b.val)
  neg a := ⟨Flt.neg a.val⟩
  lt a b := Flt.lt a.val b.val
  ge a b := Flt.ge a.val b.val
  eq a b := Flt.eq a.val b.val
  fmax a b := ⟨Flt.fmax a.val b.val⟩

/-! ## Vectors -/

/-- A vector of three scalars (`vec3_t`). -/
structure vec3_t (F : Type) where
  x : F
  y : F
  z : F
  deriving DecidableEq

/-- Modelled from the spec: the constructor `vec3(x, y, z)` of the vector
library, which is not part of the sources. -/
def vec3 {F : Type} (x y z : F) : vec3_t F := ⟨x, y, z⟩

/-- Modelled from the spec: `vec3(0.0)`, the zero vector (the one-argument
form fills the three components). -/
def vec3_zero {F : Type} [Scalar F] : vec3_t F := ⟨Scalar.lit 0, Scalar.lit 0, Scalar.lit 0⟩

/-- Modelled from the spec: `vec3_add` of the vector library, the
component-wise sum. -/
def vec3_add {F : Type} [Scalar F] (a b : vec3_t F) : vec3_t F :=
  ⟨Scalar.add a.x b.x, Scalar.add a.y b.y, Scalar.add a.z b.z⟩

/-- Modelled from the spec: `vec3_sub` of the vector library, the
component-wise difference. -/
def vec3_sub {F : Type} [Scalar F] (a b : vec3_t F) : vec3_t F :=
  ⟨Scalar.sub a.x b.x, Scalar.sub a.y b.y, Scalar.sub a.z b.z⟩

/-- Modelled from the spec: `vec3_scale` of the vector library, every
component multiplied by the scalar. -/
def vec3_scale {F : Type} [Scalar F] (a : vec3_t F) (s : F) : vec3_t F :=
  ⟨Scalar.mul a.x s, Scalar.mul a.y s, Scalar.mul a.z s⟩

/-! ## Components -/

/-- Entities are opaque numeric identifiers. -/
abbrev entity_t := Nat

/-- Modelled from the spec: the force component (`c_force_t`, declared in
`components/force.h`, which is not part of the sources), with the two fields
the physics step reads. -/
structure c_force_t (F : Type) where
  active : Bool
  force : vec3_t F

/-- Modelled from the spec: the velocity component (`c_velocity_t`, declared
in `components/velocity.h`, which is not part of the sources), with the
fields the physics step reads and writes, and the entity that owns it. -/
structure c_velocity_t (F : Type) where
  entity : entity_t
  pre_movement_pos : vec3_t F
  pre_collision_pos : vec3_t F
  computed_pos : vec3_t F
  velocity : vec3_t F
  normal : vec3_t F

/-- Modelled from the spec: the rigid body component (`c_rigid_body_t`,
declared in `components/rigid_body.h`, which is not part of the sources):
its owner, the optional probe callback `costum` (a null pointer is `none`;
the callback is taken to be a function of the probed point) and the
step height `offset`. -/
structure c_rigid_body_t (F : Type) where
  entity : entity_t
  costum : Option (vec3_t F → F)
  offset : F

/-- The part of the world the physics step works on.  Component storage is
paged: a list of pages, each a list of slots.  `pos e` is the position of the
spatial component of `e` (velocity depends on the spatial component, so it is
present for every velocity-bearing entity).  `node e` is the node of `e` when
it has one, as the map that `mat4_mul_vec4(node->model, vec4(offset, 0)).xyz`
applies to an offset.  `intersects` is `c_rigid_body_intersects`, which is not
part of the sources. -/
structure World (F : Type) where
  forces : List (List (c_force_t F))
  vels : List (List (c_velocity_t F))
  bodies : List (List (c_rigid_body_t F))
  pos : entity_t → vec3_t F
  node : entity_t → Option (vec3_t F → vec3_t F)
  intersects : List (List (c_velocity_t F)) → c_rigid_body_t F → c_rigid_body_t F → Bool

/-- Modelled from the spec: `ct_get_at(ct, p, i)`, the component in slot `i`
of page `p`. -/
def ct_get_at {α : Type} (pages : List (List α)) (p i : Nat) : Option α :=
  match pages[p]? with
  | some page => page[i]?
  | none => none

/-- The value of `pages[p].components_size`. -/
def components_size {α : Type} (pages : List (List α)) (p : Nat) : Nat :=
  match pages[p]? with
  | some page => page.length
  | none => 0

/-- Modelled from the spec: `c_velocity(c)`, the velocity component of the
entity that owns `c`, found by scanning the pages; `none` is the null
pointer. -/
def c_velocity {F : Type} (vels : List (List (c_velocity_t F))) (e : entity_t) :
    Option (c_velocity_t F) :=
  vels.flatten.find? (fun v => decide (v.entity = e))

/-- A write through the pointer returned by `c_velocity` within one page:
the first slot owned by `e` receives `v`. -/
def page_store {F : Type} (e : entity_t) (v : c_velocity_t F) :
    List (c_velocity_t F) → List (c_velocity_t F)
  | [] => []
  | u :: us => if u.entity = e then v :: us else u :: page_store e v us

/-- A write through the pointer returned by `c_velocity`: the first slot
owned by `e`, in page-then-slot order, receives `v`. -/
def vel_store {F : Type} (e : entity_t) (v : c_velocity_t F) :
    List (List (c_velocity_t F)) → List (List (c_velocity_t F))
  | [] => []
  | page :: pages =>
    if page.any (fun u => decide (u.entity = e)) then page_store e v page :: pages
    else page :: vel_store e v pages

/-! ## The physics step (`src/systems/physics.c`) -/

/-- The function `c_physics_handle_forces`: every active force of the
world, scaled by `dt`, is added to the velocity, in page-then-slot order. -/
def c_physics_handle_forces {F : Type} [Scalar F] (forces : List (List (c_force_t F)))
    (vel : vec3_t F) (dt : F) : vec3_t F :=
  forces.foldl (fun vel page =>
    page.foldl (fun vel fc =>
      if fc.active then vec3_add vel (vec3_scale fc.force dt) else vel) vel) vel

/-- The function `handle_dirs`: which axes may keep their new value. -/
def handle_dirs {F : Type} [Scalar F] (cb : vec3_t F → F) (old_pos new_pos : vec3_t F) :
    vec3_t F :=
  let res : vec3_t F := vec3 (Scalar.lit 1) (Scalar.lit 1) (Scalar.lit 1)
  if Scalar.lt (cb (vec3 new_pos.x old_pos.y new_pos.z)) (Scalar.lit 0) then
    { res with y := Scalar.lit 0 }
  else if Scalar.lt (cb (vec3 old_pos.x new_pos.y new_pos.z)) (Scalar.lit 0) then
    { res with x := Scalar.lit 0 }
  else if Scalar.lt (cb (vec3 new_pos.x new_pos.y old_pos.z)) (Scalar.lit 0) then
    { res with z := Scalar.lit 0 }
  else if Scalar.lt (cb (vec3 new_pos.x old_pos.y old_pos.z)) (Scalar.lit 0) then
    { res with y := Scalar.lit 0, z := Scalar.lit 0 }
  else if Scalar.lt (cb (vec3 old_pos.x old_pos.y new_pos.z)) (Scalar.lit 0) then
    { res with y := Scalar.lit 0, x := Scalar.lit 0 }
  else if Scalar.lt (cb (vec3 old_pos.x new_pos.y old_pos.z)) (Scalar.lit 0) then
    { res with x := Scalar.lit 0, z := Scalar.lit 0 }
  else
    { res with x := Scalar.lit 0, y := Scalar.lit 0, z := Scalar.lit 0 }

/-- The offset after lines 79-87 of `handle_cols_for_offset`: moved by the
model matrix of the node of the projectile when it has one. -/
def node_offset {F : Type} (node : Option (vec3_t F → vec3_t F)) (offset : vec3_t F) :
    vec3_t F :=
  match node with
  | some model => model offset
  | none => offset

/-- The function `handle_cols_for_offset`: the returned depth and the new
value of `*new_pos`.  `node` is `c_node(projectile)`. -/
def handle_cols_for_offset {F : Type} [Scalar F] (node : Option (vec3_t F → vec3_t F))
    (cb : vec3_t F → F) (offset new_pos old_pos : vec3_t F) : F × vec3_t F :=
  let offset := node_offset node offset
  let o_new_pos := vec3_add offset new_pos
  let o_old_pos := vec3_add offset old_pos
  let f := cb o_new_pos
  if Scalar.ge f (Scalar.lit 0) then
    let delta := handle_dirs cb o_old_pos o_new_pos
    let new_pos := if Scalar.eq delta.x (Scalar.lit 0) then { new_pos with x := old_pos.x }
      else new_pos
    let new_pos := if Scalar.eq delta.y (Scalar.lit 0) then { new_pos with y := old_pos.y }
      else new_pos
    let new_pos := if Scalar.eq delta.z (Scalar.lit 0) then { new_pos with z := old_pos.z }
      else new_pos
    (f, new_pos)
  else (Scalar.lit 0, new_pos)

/-- The head of `c_physics_handle_collisions` (lines 105-122): the collider
`c`, the other body `d` and the probe `cb`, or `none` when `cb` stays null. -/
def select_probe {F : Type} (c1 c2 : c_rigid_body_t F) :
    Option (c_rigid_body_t F × c_rigid_body_t F × (vec3_t F → F)) :=
  match c1.costum with
  | some cb1 => some (c1, c2, cb1)
  | none =>
    match c2.costum with
    | some cb2 => some (c2, c1, cb2)
    | none => none

/-- The array `offsets` of `c_physics_handle_collisions`, for the step
height `rb->offset`. -/
def probe_offsets {F : Type} [Scalar F] (rb_offset : F) : List (vec3_t F) :=
  let width : F := Scalar.lit (1 / 5)
  [ vec3 width (Scalar.lit 0) width,
    vec3 width (Scalar.lit 0) (Scalar.neg width),
    vec3 (Scalar.neg width) (Scalar.lit 0) width,
    vec3 (Scalar.neg width) (Scalar.lit 0) (Scalar.neg width),
    vec3 width rb_offset width,
    vec3 width rb_offset (Scalar.neg width),
    vec3 (Scalar.neg width) rb_offset width,
    vec3 (Scalar.neg width) rb_offset (Scalar.neg width) ]

/-- The loop over the probe offsets in `c_physics_handle_collisions`
(lines 143-148): the running `friction` and `vc->computed_pos`. -/
def probe_loop {F : Type} [Scalar F] (node : Option (vec3_t F → vec3_t F))
    (cb : vec3_t F → F) (offsets : List (vec3_t F)) (computed_pos pre_movement_pos : vec3_t F) :
    F × vec3_t F :=
  offsets.foldl (fun acc o =>
    let r := handle_cols_for_offset node cb o acc.2 pre_movement_pos
    (Scalar.fmax r.1 acc.1, r.2)) (Scalar.lit 0, computed_pos)

/-- The three assignments after the probe loop (lines 149-151): the
velocity loses the axes on which the body is back at its old coordinate. -/
def stop_axes {F : Type} [Scalar F] (computed_pos pre_movement_pos velocity : vec3_t F) :
    vec3_t F :=
  let velocity := if Scalar.eq computed_pos.x pre_movement_pos.x
    then { velocity with x := Scalar.lit 0 } else velocity
  let velocity := if Scalar.eq computed_pos.y pre_movement_pos.y
    then { velocity with y := Scalar.lit 0 } else velocity
  let velocity := if Scalar.eq computed_pos.z pre_movement_pos.z
    then { velocity with z := Scalar.lit 0 } else velocity
  velocity

/-- The two assignments of the coarse branch (lines 166-167 and 171-172):
the velocity becomes zero and `computed_pos` returns to `pre_movement_pos`. -/
def stopped {F : Type} [Scalar F] (v : c_velocity_t F) : c_velocity_t F :=
  { v with velocity := vec3_zero, computed_pos := v.pre_movement_pos }

/-- The full stop of the coarse branch (lines 164-173) for one body: it is
applied when the body has a velocity component. -/
def full_stop {F : Type} [Scalar F] (e : entity_t) (vels : List (List (c_velocity_t F))) :
    List (List (c_velocity_t F)) :=
  match c_velocity vels e with
  | some v => vel_store e (stopped v) vels
  | none => vels

/-- The probe branch of `c_physics_handle_collisions` (lines 126-151) for the
probe `cb` and the other body `d`.  The result is `none` when the code
dereferences a null pointer: `vc` is read without a check.
`c_rigid_body(d)` is `d` itself, the rigid body of the entity that owns
`d`. -/
def probe_branch {F : Type} [Scalar F] (node : entity_t → Option (vec3_t F → vec3_t F))
    (cb : vec3_t F → F) (d : c_rigid_body_t F) (vels : List (List (c_velocity_t F))) :
    Option (List (List (c_velocity_t F))) :=
  match c_velocity vels d.entity with
  | none => none
  | some vc =>
    let r := probe_loop (node d.entity) cb (probe_offsets d.offset)
      vc.computed_pos vc.pre_movement_pos
    let velocity := stop_axes r.2 vc.pre_movement_pos vc.velocity
    some (vel_store d.entity { vc with computed_pos := r.2, velocity := velocity } vels)

/-- The coarse branch of `c_physics_handle_collisions` (lines 160-174);
`hit` is the result of `c_rigid_body_intersects(c1, c2, &contact)`. -/
def coarse_branch {F : Type} [Scalar F] (hit : Bool) (c1 c2 : c_rigid_body_t F)
    (vels : List (List (c_velocity_t F))) : List (List (c_velocity_t F)) :=
  if hit then full_stop c2.entity (full_stop c1.entity vels) else vels

/-- The function `c_physics_handle_collisions` on the velocity storage. -/
def c_physics_handle_collisions {F : Type} [Scalar F] (w : World F)
    (c1 c2 : c_rigid_body_t F) (vels : List (List (c_velocity_t F))) :
    Option (List (List (c_velocity_t F))) :=
  match select_probe c1 c2 with
  | some (_, d, cb) => probe_branch w.node cb d vels
  | none => some (coarse_branch (w.intersects vels c1 c2) c1 c2 vels)

/-- A counting loop `for(i = lo; i < hi; i++)` over a state; a body that
returns `none` aborts the run. -/
def for_loop {σ : Type} (lo hi : Nat) (body : Nat → σ → Option σ) (s : σ) : Option σ :=
  (List.range' lo (hi - lo)).foldlM (fun s i => body i s) s

/-- The loop nest of the collision phase of `c_physics_update`
(lines 199-219) over any paged storage.  `enter p i` is the work done on
entering the outer body for slot `(p, i)` (lines 202-203), `visit` the body of
the innermost loop (lines 210-215).  The variable `si` is part of the state of
the loop over `p2`: it starts at `i + 1` and is reset to `0` after the first
page. -/
def pair_loops {α σ τ : Type} (pages : List (List α))
    (enter : Nat → Nat → σ → Option τ)
    (visit : τ → Nat → Nat → σ → Option σ) (s : σ) : Option σ :=
  for_loop 0 pages.length (fun p s =>
    for_loop 0 (components_size pages p) (fun i s =>
      (enter p i s).bind (fun c1 =>
        (for_loop p pages.length (fun p2 st =>
          (for_loop st.1 (components_size pages p2) (fun j s => visit c1 p2 j s) st.2).map
            (fun s => (0, s))) (i + 1, s)).map Prod.snd)) s) s

/-- The pairs of slots that the loop nest of the collision phase reaches, in
the order it reaches them. -/
def visited_pairs {α : Type} (pages : List (List α)) :
    Option (List ((Nat × Nat) × (Nat × Nat))) :=
  pair_loops pages (fun p i _ => some (p, i))
    (fun a p2 j log => some (log ++ [(a, (p2, j))])) []

/-- The integration of one velocity component (lines 188-196). -/
def integrate {F : Type} [Scalar F] (w : World F) (dt : F) (vc : c_velocity_t F) :
    c_velocity_t F :=
  let sc_pos := w.pos vc.entity
  let velocity := c_physics_handle_forces w.forces vc.velocity dt
  let p := vec3_add sc_pos (vec3_scale velocity dt)
  { vc with pre_movement_pos := sc_pos, velocity := velocity,
            pre_collision_pos := p, computed_pos := p }

/-- The first phase of `c_physics_update` (lines 185-197): every velocity
component, page by page and slot by slot, is integrated in place. -/
def integrate_all {F : Type} [Scalar F] (w : World F) (dt : F) :
    List (List (c_velocity_t F)) :=
  w.vels.map (fun page => page.map (integrate w dt))

/-- The second phase of `c_physics_update` (lines 199-219). -/
def collide_all {F : Type} [Scalar F] (w : World F) (vels : List (List (c_velocity_t F))) :
    Option (List (List (c_velocity_t F))) :=
  pair_loops w.bodies
    (fun p i vels =>
      match ct_get_at w.bodies p i with
      | some c1 => some (c1, (c_velocity vels c1.entity).isSome)
      | none => none)
    (fun c1 p2 j vels =>
      match ct_get_at w.bodies p2 j with
      | some c2 =>
        if !c1.2 && !(c_velocity vels c2.entity).isSome then some vels
        else c_physics_handle_collisions w c1.1 c2 vels
      | none => none)
    vels

/-- The update of one velocity component in the last phase (lines 228-229). -/
def commit {F : Type} [Scalar F] (vc : c_velocity_t F) : c_velocity_t F :=
  let normal := vec3_sub vc.computed_pos vc.pre_collision_pos
  let normal := if !Scalar.eq normal.x normal.x then vec3_zero else normal
  { vc with normal := normal }

/-- Modelled from the spec: `c_spacial_set_pos(sc, pos)`, which is not part
of the sources, stores the position of the spatial component of `e`. -/
def c_spacial_set_pos {F : Type} (pos : entity_t → vec3_t F) (e : entity_t) (p : vec3_t F) :
    entity_t → vec3_t F :=
  fun e2 => if e2 = e then p else pos e2

/-- The positions written by the last phase (line 231), page by page and
slot by slot. -/
def commit_pos {F : Type} (vels : List (List (c_velocity_t F))) (pos : entity_t → vec3_t F) :
    entity_t → vec3_t F :=
  vels.foldl (fun pos page =>
    page.foldl (fun pos vc => c_spacial_set_pos pos vc.entity vc.computed_pos) pos) pos

/-- The function `c_physics_update`: integration, pairwise collisions,
commit.  The result is `none` when a null velocity pointer is dereferenced
during the collision phase. -/
def c_physics_update {F : Type} [Scalar F] (w : World F) (dt : F) : Option (World F) :=
  match collide_all w (integrate_all w dt) with
  | none => none
  | some vels =>
    some { w with vels := vels.map (fun page => page.map commit),
                  pos := commit_pos vels w.pos }

/-! ## The mouse ownership stack (`src/candle.c`) -/

/-- A call to the windowing library made by the mouse functions. -/
inductive SdlCall where
  | ShowCursor (toggle : Int) : SdlCall
  | SetRelativeMouseMode (enabled : Bool) : SdlCall
  | WarpMouseInWindow (x y : Int) : SdlCall
  deriving DecidableEq

/-- The fields of `candle_t` used by the mouse functions.  The arrays
`mouse_owners` and `mouse_visible` have 16 slots, the indices `0` to `15`;
`sdl` records the calls made to the windowing library, oldest first. -/
structure candle_t where
  mouse_owners : Nat → entity_t
  mouse_visible : Nat → Int
  mx : Int
  my : Int
  mo_x : Int
  mo_y : Int
  sdl : List SdlCall

/-- The assignment `a[i] = v`. -/
def array_set {α : Type} (a : Nat → α) (i : Nat) (v : α) : Nat → α :=
  fun k => if k = i then v else a k

/-- The body of the two shifting loops: slot `dst` receives slot `src`. -/
def copy_slot (self : candle_t) (dst src : Nat) : candle_t :=
  { self with
    mouse_owners := array_set self.mouse_owners dst (self.mouse_owners src),
    mouse_visible := array_set self.mouse_visible dst (self.mouse_visible src) }

/-- The function `candle_grab_mouse`. -/
def candle_grab_mouse (self : candle_t) (ent : entity_t) (visibility : Int) : candle_t :=
  let self := (List.range' 1 15).reverse.foldl (fun self i => copy_slot self i (i - 1)) self
  { self with
    mouse_owners := array_set self.mouse_owners 0 ent,
    mouse_visible := array_set self.mouse_visible 0 visibility,
    mo_x := self.mx,
    mo_y := self.my,
    sdl := self.sdl ++ [SdlCall.ShowCursor visibility,
      SdlCall.SetRelativeMouseMode (decide (visibility = 0))] }

/-- The inner loop of `candle_release_mouse` (lines 315-320),
`for(; i < 15; i++)`: the state and the value of `i` when it ends. -/
def release_shift (self : candle_t) (i : Nat) : candle_t × Nat :=
  ((List.range' i (15 - i)).foldl (fun self k => copy_slot self k (k + 1)) self, max i 15)

/-- The calls made when the outer loop of `candle_release_mouse` finds the
entity (lines 309-314). -/
def release_effects (reset : Int) (self : candle_t) : candle_t :=
  let self := { self with sdl := self.sdl ++ [SdlCall.SetRelativeMouseMode false] }
  if reset ≠ 0 then
    { self with sdl := self.sdl ++ [SdlCall.WarpMouseInWindow self.mo_x self.mo_y] }
  else self

/-- The outer loop of `candle_release_mouse` (lines 304-322), from the
current value of `i`; the inner loop advances the same variable. -/
def release_loop (ent : entity_t) (reset : Int) (self : candle_t) (i : Nat) : candle_t :=
  if i < 16 then
    if self.mouse_owners i = ent then
      let r := release_shift (release_effects reset self) i
      release_loop ent reset r.1 (r.2 + 1)
    else release_loop ent reset self (i + 1)
  else self
termination_by 16 - i
decreasing_by
  all_goals simp_wf
  all_goals first | omega | (simp only [release_shift]; omega)

/-- The function `candle_release_mouse`. -/
def candle_release_mouse (self : candle_t) (ent : entity_t) (reset : Int) : candle_t :=
  let self := release_loop ent reset self 0
  let vis := self.mouse_visible 0
  { self with sdl := self.sdl ++ [SdlCall.ShowCursor vis,
      SdlCall.SetRelativeMouseMode (decide (vis = 0))] }


/-! ## The mouse stack at start-up (candle.c, lines 403-404) -/

/-- The mouse fields of the structure that `candle_new` returns.  `calloc`
zeroes every field, then slot 0 is given to `entity_null` with the cursor
visible.  `entity_null` is declared outside these sources (ecm.h), so its
value is a parameter here. -/
def candle_new (entity_null : entity_t) : candle_t :=
  { mouse_owners := array_set (fun _ => 0) 0 entity_null,
    mouse_visible := array_set (fun _ => 0) 0 1,
    mx := 0, my := 0, mo_x := 0, mo_y := 0, sdl := [] }

/-! ## Input events (candle.c, lines 29-118) -/

/-- The events of the windowing library that `handle_event` tells apart, each
with the fields that `handle_event` reads: `event.wheel`, `event.button`,
`event.motion`, `event.key.keysym.sym` and `event.window.event`.  `Other` is
an event of any other type. -/
inductive SDL_Event where
  | MouseWheel (x y direction : Int) : SDL_Event
  | MouseButtonUp (x y button : Int) : SDL_Event
  | MouseButtonDown (x y button : Int) : SDL_Event
  | MouseMotion (x y xrel yrel : Int) : SDL_Event
  | KeyUp (sym : Int) : SDL_Event
  | KeyDown (sym : Int) : SDL_Event
  | WindowEvent (event : Int) : SDL_Event
  | Other : SDL_Event
  deriving DecidableEq

/-- The button number `SDL_BUTTON_MIDDLE` of the windowing library. -/
def SDL_BUTTON_MIDDLE : Int := 2

/-- The window event number `SDL_WINDOWEVENT_RESIZED` of the windowing
library. -/
def SDL_WINDOWEVENT_RESIZED : Int := 5

/-- The signals that `handle_event` emits. -/
inductive signal_t where
  | event_handle : signal_t
  | mouse_wheel : signal_t
  | mouse_release : signal_t
  | mouse_press : signal_t
  | mouse_move : signal_t
  | key_up : signal_t
  | key_down : signal_t
  deriving DecidableEq

/-- Modelled from the spec: the data that `handle_event` passes with a signal.
`mouse_button_data` and `mouse_move_data` are declared in mouse.h; their four
fields are kept in the order of the initialisers of `handle_event`.  The
event signal carries the event, the key signals carry a `char`. -/
inductive signal_data where
  | event (event : SDL_Event) : signal_data
  | mouse_button_data (x y direction button : Int) : signal_data
  | mouse_move_data (sx sy x y : Int) : signal_data
  | key (key : Int) : signal_data
  deriving DecidableEq

/-- One call of `entity_signal` (`same = false`) or of `entity_signal_same`
(`same = true`): the entity, the signal and the data passed. -/
structure emission_t where
  same : Bool
  target : entity_t
  signal : signal_t
  data : signal_data
  deriving DecidableEq

/-- The fields of `candle_t` that `handle_event` reads and writes: the mouse
fields and `shift`. -/
structure candle_input_t where
  mouse : candle_t
  shift : Int

/-- What the listeners of a signal do when a signal is emitted: they may
change the state, and the emission returns their status. -/
abbrev listeners_t := emission_t → candle_input_t → candle_input_t × Int

/-- The state while an event is handled, with the calls made so far, oldest
first: `signals` are the emissions, `resizes` the events passed to
`c_window_handle_resize`. -/
structure event_run where
  self : candle_input_t
  signals : List emission_t
  resizes : List SDL_Event

/-- Modelled from the spec: a call of `entity_signal` or `entity_signal_same`
(declared in ecm.h).  The call is recorded, the listeners `bus` run on the
state, and the call returns their status. -/
def entity_signal (bus : listeners_t) (r : event_run) (same : Bool) (target : entity_t)
    (signal : signal_t) (data : signal_data) : event_run × Int :=
  let out := bus ⟨same, target, signal, data⟩ r.self
  ({ r with self := out.1, signals := r.signals ++ [⟨same, target, signal, data⟩] }, out.2)

/-- The assignment `key = event.key.keysym.sym` of an `int` to a `char`: the
low 8 bits, read as a signed value (the test `key == -31` of `handle_event`
can only succeed for a signed `char`). -/
def to_char (sym : Int) : Int := (sym + 128) % 256 - 128

/-- The first part of `handle_event` (lines 32-46): the event is offered to
the listeners of `event_handle`, those of the top owner when slot 0 is not
`entity_null`, all of them otherwise. -/
def event_handle_call (entity_null : entity_t) (bus : listeners_t) (self : candle_input_t)
    (event : SDL_Event) : event_run × Int :=
  if self.mouse.mouse_owners 0 ≠ entity_null then
    entity_signal bus ⟨self, [], []⟩ true (self.mouse.mouse_owners 0)
      signal_t.event_handle (signal_data.event event)
  else
    entity_signal bus ⟨self, [], []⟩ false entity_null
      signal_t.event_handle (signal_data.event event)

/-- The `switch` of `handle_event` (lines 49-114). -/
def event_switch (entity_null : entity_t) (bus : listeners_t) (r : event_run)
    (event : SDL_Event) : event_run :=
  match event with
  | SDL_Event.MouseWheel x y direction =>
    (entity_signal bus r false entity_null signal_t.mouse_wheel
      (signal_data.mouse_button_data x y direction SDL_BUTTON_MIDDLE)).1
  | SDL_Event.MouseButtonUp x y button =>
    if r.self.mouse.mouse_owners 0 ≠ entity_null then
      (entity_signal bus r false (r.self.mouse.mouse_owners 0) signal_t.mouse_release
        (signal_data.mouse_button_data x y 0 button)).1
    else
      (entity_signal bus r false entity_null signal_t.mouse_release
        (signal_data.mouse_button_data x y 0 button)).1
  | SDL_Event.MouseButtonDown x y button =>
    (entity_signal bus r false entity_null signal_t.mouse_press
      (signal_data.mouse_button_data x y 0 button)).1
  | SDL_Event.MouseMotion x y xrel yrel =>
    let r : event_run :=
      { r with self := { r.self with mouse := { r.self.mouse with mx := x, my := y } } }
    if r.self.mouse.mouse_owners 0 ≠ entity_null then
      (entity_signal bus r true (r.self.mouse.mouse_owners 0) signal_t.mouse_move
        (signal_data.mouse_move_data xrel yrel x y)).1
    else
      (entity_signal bus r false entity_null signal_t.mouse_move
        (signal_data.mouse_move_data xrel yrel x y)).1
  | SDL_Event.KeyUp sym =>
    let key := to_char sym
    let r : event_run := if key = -31 then { r with self := { r.self with shift := 0 } } else r
    (entity_signal bus r false entity_null signal_t.key_up (signal_data.key key)).1
  | SDL_Event.KeyDown sym =>
    let key := to_char sym
    let r : event_run := if key = -31 then { r with self := { r.self with shift := 1 } } else r
    (entity_signal bus r false entity_null signal_t.key_down (signal_data.key key)).1
  | SDL_Event.WindowEvent event_kind =>
    if event_kind = SDL_WINDOWEVENT_RESIZED then { r with resizes := r.resizes ++ [event] }
    else r
  | SDL_Event.Other => r

/-- The function `handle_event`: the state and the calls made, and the value
returned, which is 1 when a listener of `event_handle` returned 0. -/
def handle_event (entity_null : entity_t) (bus : listeners_t) (self : candle_input_t)
    (event : SDL_Event) : event_run × Int :=
  let first := event_handle_call entity_null bus self event
  if first.2 = 0 then (first.1, 1)
  else (event_switch entity_null bus first.1 event, 0)

/-! ## States reached inside `c_physics_update` -/

/-- The velocity storages on which `c_physics_update` calls
`c_physics_handle_collisions`: the storage left by the integration phase,
and every storage that a call of `c_physics_handle_collisions` leaves. -/
inductive Reached {F : Type} [Scalar F] (w : World F) (dt : F) :
    List (List (c_velocity_t F)) → Prop where
  | start : Reached w dt (integrate_all w dt)
  | step (c1 c2 : c_rigid_body_t F) (vels vels2 : List (List (c_velocity_t F))) :
      Reached w dt vels → c_physics_handle_collisions w c1 c2 vels = some vels2 →
      Reached w dt vels2

/-- A candidate height that comes from the old height: when the old height
is not a number, the candidate height is that same value. -/
def height_tracked {F : Type} [Scalar F] (vc : c_velocity_t F) : Prop :=
  Scalar.eq vc.pre_movement_pos.y vc.pre_movement_pos.y = false →
    vc.computed_pos.y = vc.pre_movement_pos.y

/-! ## Inputs used to exercise the statements -/

/-- A floor at height one half, probed from above: the depth grows as the
probed point goes down. -/
def floor_probe : vec3_t ℚ → ℚ := fun p => 1 / 2 - p.y

/-- A static body that exposes `floor_probe`. -/
def floor_body : c_rigid_body_t ℚ := { entity := 1, costum := some floor_probe, offset := 0 }

/-- A moving body without a probe. -/
def ball_body : c_rigid_body_t ℚ := { entity := 2, costum := none, offset := 0 }

/-- A second moving body without a probe. -/
def crate_body : c_rigid_body_t ℚ := { entity := 3, costum := none, offset := 0 }

/-- The velocity component of `ball_body`, moving sideways and down. -/
def falling : c_velocity_t ℚ :=
  { entity := 2, pre_movement_pos := ⟨0, 0, 0⟩, pre_collision_pos := ⟨0, 0, 0⟩,
    computed_pos := ⟨0, 0, 0⟩, velocity := ⟨1, -1, 0⟩, normal := ⟨0, 0, 0⟩ }

/-- The velocity component of `crate_body`. -/
def sliding : c_velocity_t ℚ :=
  { entity := 3, pre_movement_pos := ⟨4, 0, 0⟩, pre_collision_pos := ⟨3, 0, 0⟩,
    computed_pos := ⟨3, 0, 0⟩, velocity := ⟨-1, 0, 0⟩, normal := ⟨0, 0, 0⟩ }

/-- A world with the floor and the ball, one unit above the origin. -/
def floor_world : World ℚ :=
  { forces := [], vels := [[falling]], bodies := [[floor_body, ball_body]],
    pos := fun _ => ⟨0, 1, 0⟩, node := fun _ => none, intersects := fun _ _ _ => false }

/-- A world with the ball and the crate, whose bounding volumes intersect. -/
def crash_world : World ℚ :=
  { forces := [], vels := [[falling], [sliding]], bodies := [[ball_body], [crate_body]],
    pos := fun _ => ⟨0, 0, 0⟩, node := fun _ => none, intersects := fun _ _ _ => true }

/-! ## The precedence of `handle_dirs` -/

/-- A hold combination: the axes that are kept at their old coordinate while
the others take the new one. -/
structure Hold where
  x : Bool
  y : Bool
  z : Bool
  deriving DecidableEq

/-- The point probed for a hold combination. -/
def hold_point {F : Type} (h : Hold) (old_pos new_pos : vec3_t F) : vec3_t F :=
  vec3 (if h.x then old_pos.x else new_pos.x) (if h.y then old_pos.y else new_pos.y)
    (if h.z then old_pos.z else new_pos.z)

/-- The mask for a hold combination: `0` on the held axes, `1.0` on the
others. -/
def hold_mask {F : Type} [Scalar F] (h : Hold) : vec3_t F :=
  vec3 (if h.x then Scalar.lit 0 else Scalar.lit 1) (if h.y then Scalar.lit 0 else Scalar.lit 1)
    (if h.z then Scalar.lit 0 else Scalar.lit 1)

/-- The order in which the code tests the hold combinations: hold Y, hold X,
hold Z, hold YZ, hold XY, hold XZ. -/
def code_order : List Hold :=
  [⟨false, true, false⟩, ⟨true, false, false⟩, ⟨false, false, true⟩,
   ⟨false, true, true⟩, ⟨true, true, false⟩, ⟨true, false, true⟩]

/-- The order of the specification: hold Y, hold X, hold Z, hold YZ, hold XZ,
hold XY. -/
def claimed_order : List Hold :=
  [⟨false, true, false⟩, ⟨true, false, false⟩, ⟨false, false, true⟩,
   ⟨false, true, true⟩, ⟨true, false, true⟩, ⟨true, true, false⟩]

/-- The first hold combination of an order whose point the probe reports as
not penetrating (`< 0`). -/
def first_clear {F : Type} [Scalar F] (order : List Hold) (cb : vec3_t F → F)
    (old_pos new_pos : vec3_t F) : Option Hold :=
  order.find? (fun h => Scalar.lt (cb (hold_point h old_pos new_pos)) (Scalar.lit 0))

/-- The hold combination selected along an order: the first clear one, all
three axes when there is none. -/
def selected_hold {F : Type} [Scalar F] (order : List Hold) (cb : vec3_t F → F)
    (old_pos new_pos : vec3_t F) : Hold :=
  (first_clear order cb old_pos new_pos).getD ⟨true, true, true⟩

/-- A probe that is clear exactly on the points with `x = 0` and
`y + z = 1`. -/
def edge_probe : vec3_t ℚ → ℚ := fun p => if p.x = 0 ∧ p.y + p.z = 1 then -1 else 0

/-! ## The branch selection of `c_physics_handle_collisions` -/

/-- The branch selection in the words of the specification: the probe branch
when exactly one body exposes a probe, the coarse test when neither or both
do. -/
def claimed_handle_collisions {F : Type} [Scalar F] (w : World F)
    (c1 c2 : c_rigid_body_t F) (vels : List (List (c_velocity_t F))) :
    Option (List (List (c_velocity_t F))) :=
  match c1.costum, c2.costum with
  | some cb, none => probe_branch w.node cb c2 vels
  | none, some cb => probe_branch w.node cb c1 vels
  | _, _ => some (coarse_branch (w.intersects vels c1 c2) c1 c2 vels)

/-- A probe that reports no penetration anywhere. -/
def clear_probe : vec3_t ℚ → ℚ := fun _ => -1

/-- A body that exposes `clear_probe`. -/
def wall_body : c_rigid_body_t ℚ := { entity := 1, costum := some clear_probe, offset := 0 }

/-- A second body that exposes `clear_probe`; it is the one that moves. -/
def drone_body : c_rigid_body_t ℚ := { entity := 3, costum := some clear_probe, offset := 0 }

/-- A world with the two probed bodies, whose bounding volumes intersect; the
velocity component of the second one is `sliding`, on its way from `x = 4` to
`x = 3`. -/
def twin_probe_world : World ℚ :=
  { forces := [], vels := [[sliding]], bodies := [[wall_body, drone_body]],
    pos := fun _ => ⟨4, 0, 0⟩, node := fun _ => none, intersects := fun _ _ _ => true }

/-! ## The pairs reached by the collision phase -/

/-- Slot `i` of page `p` exists in the storage. -/
def is_slot {α : Type} (pages : List (List α)) (a : Nat × Nat) : Prop :=
  a.2 < components_size pages a.1

/-- Page-then-slot order on slots. -/
def slot_before (a b : Nat × Nat) : Prop :=
  a.1 < b.1 ∨ (a.1 = b.1 ∧ a.2 < b.2)

/-- The slots of page `p` from `si` on, in order. -/
def page_row {α : Type} (pages : List (List α)) (p si : Nat) : List (Nat × Nat) :=
  (List.range' si (components_size pages p - si)).map (fun j => (p, j))

/-- The slots of the listed pages in order, from slot `si` in the first of
them and from slot `0` in the others. -/
def page_rows {α : Type} (pages : List (List α)) : List Nat → Nat → List (Nat × Nat)
  | [], _ => []
  | p :: ps, si => page_row pages p si ++ page_rows pages ps 0

/-- All the slots of the storage, in page-then-slot order. -/
def all_slots {α : Type} (pages : List (List α)) : List (Nat × Nat) :=
  (List.range' 0 (pages.length - 0)).flatMap (fun p => page_row pages p 0)

/-- The slots that come after slot `a`, in page-then-slot order. -/
def later_slots {α : Type} (pages : List (List α)) (a : Nat × Nat) : List (Nat × Nat) :=
  page_rows pages (List.range' a.1 (pages.length - a.1)) (a.2 + 1)

/-! ## The force sum -/

/-- The sum of the force vectors of the active force components of the world,
in exact arithmetic. -/
def active_force_sum (forces : List (List (c_force_t ℚ))) : vec3_t ℚ :=
  ⟨((forces.flatten.filter (fun fc => fc.active)).map (fun fc => fc.force.x)).sum,
   ((forces.flatten.filter (fun fc => fc.active)).map (fun fc => fc.force.y)).sum,
   ((forces.flatten.filter (fun fc => fc.active)).map (fun fc => fc.force.z)).sum⟩

/-- A world with an active and an inactive force and one moving entity. -/
def windy_world : World ℚ :=
  { forces := [[⟨true, ⟨0, -10, 0⟩⟩], [⟨false, ⟨5, 5, 5⟩⟩, ⟨true, ⟨2, 0, 0⟩⟩]],
    vels := [[], [falling]], bodies := [],
    pos := fun _ => ⟨0, 8, 0⟩, node := fun _ => none, intersects := fun _ _ _ => false }

/-! ## Inputs with special values -/

/-- A velocity component at rest, owned by entity `1`. -/
def at_rest : c_velocity_t Flt :=
  { entity := 1, pre_movement_pos := vec3_zero, pre_collision_pos := vec3_zero,
    computed_pos := vec3_zero, velocity := vec3_zero, normal := vec3_zero }

/-- A world with one entity at rest at an infinite height, no force and no
rigid body. -/
def lofty_world : World Flt :=
  { forces := [], vels := [[at_rest]], bodies := [],
    pos := fun _ => ⟨Flt.fin 0, Flt.pinf, Flt.fin 0⟩, node := fun _ => none,
    intersects := fun _ _ _ => false }

/-- A world with one entity at the origin whose vertical speed is infinite,
no force and no rigid body. -/
def runaway_world : World Flt :=
  { forces := [],
    vels := [[{ at_rest with velocity := ⟨Flt.fin 0, Flt.pinf, Flt.fin 0⟩ }]],
    bodies := [],
    pos := fun _ => vec3_zero, node := fun _ => none,
    intersects := fun _ _ _ => false }

/-- A world at rest with two rigid bodies: entity `1` has a velocity component
and exposes a probe, entity `2` has neither. -/
def probed_mover_world : World Flt :=
  { forces := [], vels := [[at_rest]],
    bodies := [[{ entity := 1, costum := some (fun _ => Flt.fin (-1)), offset := Flt.fin 0 },
                { entity := 2, costum := none, offset := Flt.fin 0 }]],
    pos := fun _ => vec3_zero, node := fun _ => none,
    intersects := fun _ _ _ => false }

/-! ## Inputs for the mouse ownership stack -/

/-- The stack as `calloc` leaves it, every slot zero. -/
def blank_stack : candle_t :=
  { mouse_owners := fun _ => 0, mouse_visible := fun _ => 0,
    mx := 0, my := 0, mo_x := 0, mo_y := 0, sdl := [] }

/-- The stack after the entities `1` to `16` have grabbed the mouse in that
order, starting from `blank_stack`. -/
def sixteen_grabs : candle_t :=
  (List.range' 1 16).foldl (fun self e => candle_grab_mouse self e 1) blank_stack

/-- A full stack: slot `i` is owned by entity `16 - i`, so entity `1` owns
slot 15 and no other slot.  These are the 16 slots of `sixteen_grabs`. -/
def full_stack : candle_t :=
  { mouse_owners := fun i => 16 - i, mouse_visible := fun i => if i < 16 then 1 else 0,
    mx := 0, my := 0, mo_x := 0, mo_y := 0, sdl := [] }

/-- A stack with three owners, with the cursor at `(7, 9)`. -/
def small_stack : candle_t :=
  { mouse_owners := fun i => if i < 3 then 10 + i else 0,
    mouse_visible := fun i => if i = 1 then 0 else 1,
    mx := 7, my := 9, mo_x := 0, mo_y := 0, sdl := [] }

/-! ## Worlds at rest -/

/-- The three coordinates of a vector are finite. -/
def vec3_finite (v : vec3_t Flt) : Prop :=
  v.x.isFinite = true ∧ v.y.isFinite = true ∧ v.z.isFinite = true

/-- A velocity component at rest at the position of its entity: zero velocity
and the three recorded positions equal to the spatial position. -/
def rests_at (pos : entity_t → vec3_t Flt) (vc : c_velocity_t Flt) : Prop :=
  vc.velocity = vec3_zero ∧ vc.pre_movement_pos = pos vc.entity ∧
    vc.pre_collision_pos = pos vc.entity ∧ vc.computed_pos = pos vc.entity

/-- In every pair of rigid bodies that the probe branch can receive, the body
treated as moving has a velocity component. -/
def moving_has_velocity {F : Type} (w : World F) : Prop :=
  ∀ c1 ∈ w.bodies.flatten, ∀ c2 ∈ w.bodies.flatten, ∀ c d cb,
    select_probe c1 c2 = some (c, d, cb) →
    ((c_velocity w.vels c1.entity).isSome = true ∨ (c_velocity w.vels c2.entity).isSome = true) →
    (c_velocity w.vels d.entity).isSome = true

/-- The velocity storage is at rest and holds the velocity components of the
same entities as the storage of the world. -/
def calm (w : World Flt) (vels : List (List (c_velocity_t Flt))) : Prop :=
  (∀ u ∈ vels.flatten, rests_at w.pos u) ∧
  ∀ e, (c_velocity vels e).isSome = (c_velocity w.vels e).isSome


/-! ## Inputs for the force integration -/

/-- The velocity that the specification describes: the old velocity plus
`dt` times the sum of the force vectors of the active force components, the
sum being formed first, from the zero vector, in storage order. -/
def claimed_velocity {F : Type} [Scalar F] (forces : List (List (c_force_t F)))
    (vel : vec3_t F) (dt : F) : vec3_t F :=
  vec3_add vel (vec3_scale
    ((forces.flatten.filter (fun fc => fc.active)).foldl
      (fun sum fc => vec3_add sum fc.force) vec3_zero) dt)

/-- A velocity component at the origin, with the velocity `(1, 0, 0)`, in
single precision. -/
def drifting : c_velocity_t F32 :=
  { entity := 1, pre_movement_pos := vec3_zero, pre_collision_pos := vec3_zero,
    computed_pos := vec3_zero, velocity := ⟨Scalar.lit 1, Scalar.lit 0, Scalar.lit 0⟩,
    normal := vec3_zero }

/-- A world in single precision with two active forces that cancel,
`(10 ^ 8, 0, 0)` and `(-10 ^ 8, 0, 0)`, an inactive force between them, and
the entity of `drifting`. -/
def tug_world : World F32 :=
  { forces := [[⟨true, ⟨Scalar.lit 100000000, Scalar.lit 0, Scalar.lit 0⟩⟩,
                ⟨false, ⟨Scalar.lit 5, Scalar.lit 5, Scalar.lit 5⟩⟩],
               [⟨true, ⟨Scalar.lit (-100000000), Scalar.lit 0, Scalar.lit 0⟩⟩]],
    vels := [[drifting]], bodies := [],
    pos := fun _ => vec3_zero, node := fun _ => none, intersects := fun _ _ _ => false }


/-! ## Sequences of grabs and releases -/

/-- A call of `candle_grab_mouse` or of `candle_release_mouse`. -/
inductive mouse_call where
  | grab (ent : entity_t) (visibility : Int) : mouse_call
  | release (ent : entity_t) (reset : Int) : mouse_call
  deriving DecidableEq

/-- The state after one call. -/
def mouse_step (self : candle_t) (c : mouse_call) : candle_t :=
  match c with
  | mouse_call.grab ent visibility => candle_grab_mouse self ent visibility
  | mouse_call.release ent reset => candle_release_mouse self ent reset

/-- The state after a sequence of calls, the oldest first. -/
def mouse_run (self : candle_t) (calls : List mouse_call) : candle_t :=
  calls.foldl mouse_step self

/-- The argument of the last call of `SDL_ShowCursor` in a log, if any: the
cursor visibility in force. -/
def cursor_shown (log : List SdlCall) : Option Int :=
  log.foldl (fun s c => match c with
    | SdlCall.ShowCursor toggle => some toggle
    | _ => s) none

/-- The argument of the last call of `SDL_SetRelativeMouseMode` in a log, if
any: whether the relative mouse mode is on. -/
def relative_mode (log : List SdlCall) : Option Bool :=
  log.foldl (fun s c => match c with
    | SdlCall.SetRelativeMouseMode enabled => some enabled
    | _ => s) none

/-- The first of the 16 slots owned by `ent`, if any. -/
def first_slot (self : candle_t) (ent : entity_t) : Option Nat :=
  (List.range 16).find? (fun j => decide (self.mouse_owners j = ent))

/-- The function `candle_release_mouse` once the search of its outer loop is
done: the shift from slot `k` when the search found `k`, then the calls that
apply the visibility of slot 0. -/
def release_at (self : candle_t) (reset : Int) (k : Option Nat) : candle_t :=
  let self := match k with
    | some k => (release_shift (release_effects reset self) k).1
    | none => self
  let vis := self.mouse_visible 0
  { self with sdl := self.sdl ++ [SdlCall.ShowCursor vis,
      SdlCall.SetRelativeMouseMode (decide (vis = 0))] }

/-! ## The mouse stack of the specification -/

/-- The stack as the specification describes it, the top entry first: a grab
pushes the entry (owner, visibility) and drops what lies beyond depth 16. -/
def spec_grab (s : List (entity_t × Int)) (ent : entity_t) (visibility : Int) :
    List (entity_t × Int) :=
  ((ent, visibility) :: s).take 16

/-- A release removes the entry owned by `ent` that is nearest to the top,
and keeps the order of the other entries. -/
def spec_release (s : List (entity_t × Int)) (ent : entity_t) : List (entity_t × Int) :=
  match s with
  | [] => []
  | e :: s => if e.1 = ent then s else e :: spec_release s ent

/-- The stack of the specification after one call. -/
def spec_step (s : List (entity_t × Int)) (c : mouse_call) : List (entity_t × Int) :=
  match c with
  | mouse_call.grab ent visibility => spec_grab s ent visibility
  | mouse_call.release ent _ => spec_release s ent

/-- The stack of the specification after a sequence of calls that starts
with the empty stack. -/
def spec_run (calls : List mouse_call) : List (entity_t × Int) :=
  calls.foldl spec_step []

/-- The visibility that the specification asks for: the flag of the top
entry, and 1, the cursor visible, when the stack is empty. -/
def spec_visibility (s : List (entity_t × Int)) : Int :=
  match s with
  | [] => 1
  | e :: _ => e.2

/-- The stack of the specification holds at most `n` entries after each call
of the sequence. -/
def holds_at_most (n : Nat) (calls : List mouse_call) : Prop :=
  ∀ k, k ≤ calls.length → (spec_run (calls.take k)).length ≤ n

instance instDecidableHoldsAtMost (n : Nat) (calls : List mouse_call) :
    Decidable (holds_at_most n calls) := by
  unfold holds_at_most
  infer_instance

/-- No call of the sequence releases `entity_null`. -/
def spares_null (entity_null : entity_t) (calls : List mouse_call) : Prop :=
  ∀ reset, mouse_call.release entity_null reset ∉ calls

/-- The 16 slots hold the entries `s` of the specification from slot 0 on,
then the entry that `candle_new` wrote: the null entity, cursor visible. -/
def tracks (entity_null : entity_t) (self : candle_t) (s : List (entity_t × Int)) : Prop :=
  s.length ≤ 15 ∧
  (∀ i, i < s.length → s[i]? = some (self.mouse_owners i, self.mouse_visible i)) ∧
  self.mouse_owners s.length = entity_null ∧ self.mouse_visible s.length = 1

/-- The entities 1 to 16 grab the mouse in this order with the cursor hidden,
then release it in the opposite order. -/
def fill_and_drain : List mouse_call :=
  (List.range' 1 16).map (fun e => mouse_call.grab e 0) ++
    (List.range' 1 16).reverse.map (fun e => mouse_call.release e 0)


/-! ## Inputs for the input events -/

/-- The entity in slot 0 of the mouse stack, the top owner; it is
`entity_null` when the stack is empty. -/
def top_owner (self : candle_input_t) : entity_t := self.mouse.mouse_owners 0

/-- Listeners that change nothing and do not claim the event. -/
def pass_on : listeners_t := fun _ self => (self, 1)

/-- The state with the mouse stack `small_stack`, whose top owner is entity
10, and the shift key up. -/
def grabbed_input : candle_input_t := { mouse := small_stack, shift := 0 }

/-- The state at start-up when `entity_null` is 0: the mouse stack is empty. -/
def idle_input : candle_input_t := { mouse := candle_new 0, shift := 0 }


/-! ## Inputs for the probe branch -/

/-- A lift that exposes `floor_probe` and moves: it has a velocity
component, `rising`. -/
def lift_body : c_rigid_body_t ℚ := { entity := 4, costum := some floor_probe, offset := 0 }

/-- A body without a probe that never moves: it has no velocity component. -/
def post_body : c_rigid_body_t ℚ := { entity := 5, costum := none, offset := 0 }

/-- The velocity component of `lift_body`, going up. -/
def rising : c_velocity_t ℚ :=
  { entity := 4, pre_movement_pos := ⟨0, 0, 0⟩, pre_collision_pos := ⟨0, 0, 0⟩,
    computed_pos := ⟨0, 0, 0⟩, velocity := ⟨0, 1, 0⟩, normal := ⟨0, 0, 0⟩ }

/-- A world with the lift and the post: the only velocity component is the
one of the lift. -/
def lift_world : World ℚ :=
  { forces := [], vels := [[rising]], bodies := [[lift_body, post_body]],
    pos := fun _ => ⟨0, 0, 0⟩, node := fun _ => none, intersects := fun _ _ _ => false }

/-! ## Scalar laws -/

instance instLawfulScalarRat : LawfulScalar ℚ where
  eq_zero_zero := by simp [Scalar.eq, Scalar.lit]
  eq_one_zero := by simp [Scalar.eq, Scalar.lit]
  ge_of_lt := by
    intro a h
    simp only [Scalar.lt, Scalar.ge, Scalar.lit, decide_eq_true_eq, decide_eq_false_iff_not,
      not_le] at h ⊢
    exact h
  add_nan := by
    intro a b h
    simp [Scalar.eq] at h

instance instLawfulScalarFlt : LawfulScalar Flt where
  eq_zero_zero := by simp [Scalar.eq, Scalar.lit, Flt.eq]
  eq_one_zero := by simp [Scalar.eq, Scalar.lit, Flt.eq]
  ge_of_lt := by
    intro a h
    cases a <;> simp_all [Scalar.lt, Scalar.ge, Scalar.lit, Flt.lt, Flt.ge, Flt.eq]
    next q => exact ⟨by linarith, fun h2 => by simp [h2] at h⟩
  add_nan := by
    intro a b h
    cases a <;> simp_all [Scalar.eq, Scalar.add, Flt.eq, Flt.add]

/-! ## The velocity storage -/

theorem page_store_find_self {F : Type} (e : entity_t) (v : c_velocity_t F) (hv : v.entity = e)
    (l : List (c_velocity_t F)) :
    (page_store e v l).find? (fun u => decide (u.entity = e)) =
      (l.find? (fun u => decide (u.entity = e))).map (fun _ => v) := by
  induction l with
  | nil => rfl
  | cons u us ih =>
    simp only [page_store]
    split
    · next h => simp only [List.find?_cons, hv, h, decide_True, Option.map_some']
    · next h => simp only [List.find?_cons, h, decide_False, ih]

theorem page_store_find_other {F : Type} (e e2 : entity_t) (v : c_velocity_t F)
    (hv : v.entity = e) (hne : e2 ≠ e) (l : List (c_velocity_t F)) :
    (page_store e v l).find? (fun u => decide (u.entity = e2)) =
      l.find? (fun u => decide (u.entity = e2)) := by
  induction l with
  | nil => rfl
  | cons u us ih =>
    simp only [page_store]
    split
    · next h =>
      have h1 : decide (u.entity = e2) = false := by
        rw [h]; exact decide_eq_false (fun h => hne h.symm)
      have h2 : decide (v.entity = e2) = false := by
        rw [hv]; exact decide_eq_false (fun h => hne h.symm)
      simp only [List.find?_cons, h1, h2]
    · next h => simp only [List.find?_cons, ih]

theorem page_store_append {F : Type} (e : entity_t) (v : c_velocity_t F)
    (l r : List (c_velocity_t F)) :
    page_store e v (l ++ r) =
      if l.any (fun u => decide (u.entity = e)) then page_store e v l ++ r
      else l ++ page_store e v r := by
  induction l with
  | nil => simp
  | cons u us ih =>
    by_cases hu : u.entity = e
    · simp [page_store, hu]
    · have h1 : page_store e v (u :: (us ++ r)) = u :: page_store e v (us ++ r) := by
        simp only [page_store, hu, if_false]
      have h2 : page_store e v (u :: us) = u :: page_store e v us := by
        simp only [page_store, hu, if_false]
      rw [List.cons_append, h1, ih, h2]
      simp only [List.any_cons, hu, decide_False, Bool.false_or]
      split <;> rfl

theorem page_store_mem {F : Type} (e : entity_t) (v u : c_velocity_t F)
    (l : List (c_velocity_t F)) (h : u ∈ page_store e v l) : u = v ∨ u ∈ l := by
  induction l with
  | nil => simp [page_store] at h
  | cons a as ih =>
    simp only [page_store] at h
    split at h
    · rcases List.mem_cons.mp h with h | h
      · exact Or.inl h
      · exact Or.inr (List.mem_cons_of_mem _ h)
    · rcases List.mem_cons.mp h with h | h
      · exact Or.inr (by rw [h]; exact List.mem_cons_self _ _)
      · rcases ih h with h | h
        · exact Or.inl h
        · exact Or.inr (List.mem_cons_of_mem _ h)

theorem vel_store_flatten {F : Type} (e : entity_t) (v : c_velocity_t F)
    (vels : List (List (c_velocity_t F))) :
    (vel_store e v vels).flatten = page_store e v vels.flatten := by
  induction vels with
  | nil => rfl
  | cons page pages ih =>
    simp only [vel_store, List.flatten_cons, page_store_append]
    split
    · simp
    · simp [ih]

theorem c_velocity_entity {F : Type} (vels : List (List (c_velocity_t F))) (e : entity_t)
    (u : c_velocity_t F) (h : c_velocity vels e = some u) : u.entity = e := by
  have := List.find?_some h
  simpa using this

theorem c_velocity_mem {F : Type} (vels : List (List (c_velocity_t F))) (e : entity_t)
    (v : c_velocity_t F) (h : c_velocity vels e = some v) : v ∈ vels.flatten :=
  List.mem_of_find?_eq_some h

theorem c_velocity_store_self {F : Type} (vels : List (List (c_velocity_t F))) (e : entity_t)
    (u v : c_velocity_t F) (hv : v.entity = e) (h : c_velocity vels e = some u) :
    c_velocity (vel_store e v vels) e = some v := by
  unfold c_velocity at h ⊢
  rw [vel_store_flatten, page_store_find_self e v hv, h]; rfl

theorem c_velocity_store_other {F : Type} (vels : List (List (c_velocity_t F)))
    (e e2 : entity_t) (v : c_velocity_t F) (hv : v.entity = e) (hne : e2 ≠ e) :
    c_velocity (vel_store e v vels) e2 = c_velocity vels e2 := by
  unfold c_velocity
  rw [vel_store_flatten, page_store_find_other e e2 v hv hne]

theorem full_stop_self {F : Type} [Scalar F] (vels : List (List (c_velocity_t F)))
    (e : entity_t) (v : c_velocity_t F) (h : c_velocity vels e = some v) :
    c_velocity (full_stop e vels) e = some (stopped v) := by
  have he := c_velocity_entity vels e v h
  simp only [full_stop, h]
  exact c_velocity_store_self vels e v _ he h

theorem full_stop_other {F : Type} [Scalar F] (vels : List (List (c_velocity_t F)))
    (e e2 : entity_t) (hne : e2 ≠ e) :
    c_velocity (full_stop e vels) e2 = c_velocity vels e2 := by
  unfold full_stop
  split
  · next v h =>
    exact c_velocity_store_other vels e e2 _ (c_velocity_entity vels e v h) hne
  · rfl

/-! ## The probe branch -/

theorem handle_dirs_hold_y {F : Type} [Scalar F] (cb : vec3_t F → F)
    (old_pos new_pos : vec3_t F)
    (h : Scalar.lt (cb (vec3 new_pos.x old_pos.y new_pos.z)) (Scalar.lit 0) = true) :
    handle_dirs cb old_pos new_pos = vec3 (Scalar.lit 1) (Scalar.lit 0) (Scalar.lit 1) := by
  simp only [handle_dirs, vec3] at h ⊢
  rw [if_pos h]

theorem handle_cols_hold_y {F : Type} [Scalar F] [LawfulScalar F] (cb : vec3_t F → F)
    (o new_pos old_pos : vec3_t F)
    (hge : Scalar.ge (cb (vec3_add o new_pos)) (Scalar.lit 0) = true)
    (hlt : Scalar.lt (cb (vec3 (vec3_add o new_pos).x (vec3_add o old_pos).y
      (vec3_add o new_pos).z)) (Scalar.lit 0) = true) :
    (handle_cols_for_offset none cb o new_pos old_pos).2 = { new_pos with y := old_pos.y } := by
  have hd := handle_dirs_hold_y cb _ _ hlt
  simp only [vec3] at hd
  unfold handle_cols_for_offset
  simp only [node_offset, hge, if_true, hd, LawfulScalar.eq_one_zero,
    LawfulScalar.eq_zero_zero, Bool.false_eq_true, if_false]

theorem handle_cols_clear {F : Type} [Scalar F] (cb : vec3_t F → F)
    (o new_pos old_pos : vec3_t F)
    (hge : Scalar.ge (cb (vec3_add o new_pos)) (Scalar.lit 0) = false) :
    (handle_cols_for_offset none cb o new_pos old_pos).2 = new_pos := by
  unfold handle_cols_for_offset
  simp only [node_offset]
  rw [if_neg (by rw [hge]; exact Bool.false_ne_true)]

/-- Every coordinate returned by `handle_cols_for_offset` is the new or the
old one. -/
theorem handle_cols_axes {F : Type} [Scalar F] (node : Option (vec3_t F → vec3_t F))
    (cb : vec3_t F → F) (o new_pos old_pos : vec3_t F) :
    ((handle_cols_for_offset node cb o new_pos old_pos).2.x = new_pos.x ∨
      (handle_cols_for_offset node cb o new_pos old_pos).2.x = old_pos.x) ∧
    ((handle_cols_for_offset node cb o new_pos old_pos).2.y = new_pos.y ∨
      (handle_cols_for_offset node cb o new_pos old_pos).2.y = old_pos.y) ∧
    ((handle_cols_for_offset node cb o new_pos old_pos).2.z = new_pos.z ∨
      (handle_cols_for_offset node cb o new_pos old_pos).2.z = old_pos.z) := by
  unfold handle_cols_for_offset
  simp only []
  split
  · refine ⟨?_, ?_, ?_⟩ <;> (repeat' split) <;> simp
  · simp

/-- Every coordinate left by the probe loop is the one it started from or the
old one. -/
theorem probe_loop_axes {F : Type} [Scalar F] (node : Option (vec3_t F → vec3_t F))
    (cb : vec3_t F → F) (offsets : List (vec3_t F)) (computed_pos pre : vec3_t F) :
    ((probe_loop node cb offsets computed_pos pre).2.x = computed_pos.x ∨
      (probe_loop node cb offsets computed_pos pre).2.x = pre.x) ∧
    ((probe_loop node cb offsets computed_pos pre).2.y = computed_pos.y ∨
      (probe_loop node cb offsets computed_pos pre).2.y = pre.y) ∧
    ((probe_loop node cb offsets computed_pos pre).2.z = computed_pos.z ∨
      (probe_loop node cb offsets computed_pos pre).2.z = pre.z) := by
  unfold probe_loop
  generalize (Scalar.lit 0 : F) = fr
  induction offsets generalizing fr computed_pos with
  | nil => simp
  | cons o os ih =>
    simp only [List.foldl_cons]
    obtain ⟨hx, hy, hz⟩ := handle_cols_axes node cb o computed_pos pre
    obtain ⟨hx2, hy2, hz2⟩ := ih (handle_cols_for_offset node cb o computed_pos pre).2
      (Scalar.fmax (handle_cols_for_offset node cb o computed_pos pre).1 fr)
    refine ⟨?_, ?_, ?_⟩
    · rcases hx2 with h | h
      · rw [h]; exact hx
      · exact Or.inr h
    · rcases hy2 with h | h
      · rw [h]; exact hy
      · exact Or.inr h
    · rcases hz2 with h | h
      · rw [h]; exact hz
      · exact Or.inr h

/-- The first offset puts the height back at its old value; the offsets
after it find their probe point clear and leave the candidate alone. -/
theorem probe_loop_hold_y {F : Type} [Scalar F] [LawfulScalar F] (cb : vec3_t F → F)
    (offsets : List (vec3_t F)) (computed_pos pre : vec3_t F) (hne : offsets ≠ [])
    (hprobe : ∀ o ∈ offsets,
      Scalar.ge (cb (vec3_add o computed_pos)) (Scalar.lit 0) = true ∧
      Scalar.lt (cb (vec3 (vec3_add o computed_pos).x (vec3_add o pre).y
        (vec3_add o computed_pos).z)) (Scalar.lit 0) = true) :
    (probe_loop none cb offsets computed_pos pre).2 = { computed_pos with y := pre.y } := by
  have hstay : ∀ (os : List (vec3_t F)) (fr : F),
      (∀ o ∈ os, Scalar.lt (cb (vec3 (vec3_add o computed_pos).x (vec3_add o pre).y
        (vec3_add o computed_pos).z)) (Scalar.lit 0) = true) →
      (os.foldl (fun acc o =>
        ((Scalar.fmax (handle_cols_for_offset none cb o acc.2 pre).1 acc.1,
          (handle_cols_for_offset none cb o acc.2 pre).2) : F × vec3_t F))
        (fr, { computed_pos with y := pre.y })).2 = { computed_pos with y := pre.y } := by
    intro os
    induction os with
    | nil => intro fr _; rfl
    | cons o os ih =>
      intro fr h
      simp only [List.foldl_cons]
      have hlt := h o (List.mem_cons_self _ _)
      have hge : Scalar.ge (cb (vec3_add o { computed_pos with y := pre.y })) (Scalar.lit 0)
          = false := LawfulScalar.ge_of_lt _ hlt
      rw [handle_cols_clear cb o _ pre hge]
      exact ih _ (fun o2 ho2 => h o2 (List.mem_cons_of_mem _ ho2))
  cases offsets with
  | nil => exact absurd rfl hne
  | cons o os =>
    unfold probe_loop
    simp only [List.foldl_cons]
    obtain ⟨hge, hlt⟩ := hprobe o (List.mem_cons_self _ _)
    rw [handle_cols_hold_y cb o computed_pos pre hge hlt]
    exact hstay os _ (fun o2 ho2 => (hprobe o2 (List.mem_cons_of_mem _ ho2)).2)

theorem stop_axes_y {F : Type} [Scalar F] (c pre vel : vec3_t F)
    (h : Scalar.eq c.y pre.y = true) : (stop_axes c pre vel).y = Scalar.lit 0 := by
  unfold stop_axes
  simp only [h, if_true]
  split <;> split <;> rfl


/-! ## States reached inside `c_physics_update` -/

theorem integrate_tracked {F : Type} [Scalar F] [LawfulScalar F] (w : World F) (dt : F)
    (vc : c_velocity_t F) : height_tracked (integrate w dt vc) := by
  intro h
  simp only [integrate, vec3_add] at h ⊢
  exact LawfulScalar.add_nan _ _ h

theorem vel_store_tracked {F : Type} [Scalar F] (e : entity_t) (v : c_velocity_t F)
    (vels : List (List (c_velocity_t F))) (hv : height_tracked v)
    (h : ∀ u ∈ vels.flatten, height_tracked u) :
    ∀ u ∈ (vel_store e v vels).flatten, height_tracked u := by
  intro u hu
  rw [vel_store_flatten] at hu
  rcases page_store_mem e v u _ hu with h1 | h1
  · rw [h1]; exact hv
  · exact h u h1

theorem full_stop_tracked {F : Type} [Scalar F] (e : entity_t)
    (vels : List (List (c_velocity_t F))) (h : ∀ u ∈ vels.flatten, height_tracked u) :
    ∀ u ∈ (full_stop e vels).flatten, height_tracked u := by
  unfold full_stop
  split
  · exact vel_store_tracked e _ vels (fun _ => rfl) h
  · exact h

theorem handle_collisions_tracked {F : Type} [Scalar F] (w : World F)
    (c1 c2 : c_rigid_body_t F) (vels vels2 : List (List (c_velocity_t F)))
    (h : ∀ u ∈ vels.flatten, height_tracked u)
    (hstep : c_physics_handle_collisions w c1 c2 vels = some vels2) :
    ∀ u ∈ vels2.flatten, height_tracked u := by
  unfold c_physics_handle_collisions at hstep
  split at hstep
  · next c d cb hsel =>
    unfold probe_branch at hstep
    split at hstep
    · exact absurd hstep (by simp)
    · next vc hvc =>
      have hvels2 := Option.some.inj hstep
      rw [← hvels2]
      refine vel_store_tracked _ _ vels ?_ h
      intro hnan
      have ht := h vc (c_velocity_mem vels _ vc hvc) hnan
      rcases (probe_loop_axes (w.node d.entity) cb (probe_offsets d.offset)
        vc.computed_pos vc.pre_movement_pos).2.1 with h1 | h1
      · exact h1.trans ht
      · exact h1
  · rw [← Option.some.inj hstep]
    unfold coarse_branch
    split
    · exact full_stop_tracked _ _ (full_stop_tracked _ _ h)
    · exact h

/-- In every storage on which `c_physics_update` calls
`c_physics_handle_collisions`, the candidate heights come from the old
heights. -/
theorem reached_tracked {F : Type} [Scalar F] [LawfulScalar F] (w : World F) (dt : F)
    (vels : List (List (c_velocity_t F))) (hr : Reached w dt vels) :
    ∀ u ∈ vels.flatten, height_tracked u := by
  induction hr with
  | start =>
    intro u hu
    simp only [integrate_all, List.mem_flatten, List.mem_map] at hu
    obtain ⟨l, ⟨page, _, hl⟩, hul⟩ := hu
    rw [← hl] at hul
    obtain ⟨v, _, hv⟩ := List.mem_map.mp hul
    rw [← hv]
    exact integrate_tracked w dt v
  | step c1 c2 vels vels2 _ hstep ih =>
    exact handle_collisions_tracked w c1 c2 vels vels2 ih hstep


/-! ## The loop nest of the collision phase -/

theorem foldlM_flatMap_option {α β σ : Type} (f : α → List β) (g : σ → β → Option σ)
    (xs : List α) (s : σ) :
    (xs.flatMap f).foldlM g s = xs.foldlM (fun s x => (f x).foldlM g s) s := by
  induction xs generalizing s with
  | nil => rfl
  | cons x xs ih =>
    simp only [List.flatMap_cons, List.foldlM_append, List.foldlM_cons]
    cases h : List.foldlM g s (f x) with
    | none => rfl
    | some s2 => simp only [Option.bind_eq_bind, Option.some_bind, ih]

theorem for_loop_row {α σ : Type} (pages : List (List α)) (p si : Nat)
    (g : Nat → Nat → σ → Option σ) (s : σ) :
    for_loop si (components_size pages p) (fun j s => g p j s) s =
      (page_row pages p si).foldlM (fun s b => g b.1 b.2 s) s := by
  simp only [for_loop, page_row, List.foldlM_map]

theorem rows_loop_list {α σ : Type} (pages : List (List α)) (g : Nat → Nat → σ → Option σ)
    (ps : List Nat) (si : Nat) (s : σ) :
    (ps.foldlM (fun (st : Nat × σ) p2 =>
        (for_loop st.1 (components_size pages p2) (fun j s => g p2 j s) st.2).map
          (fun s => (0, s))) (si, s)).map Prod.snd =
      (page_rows pages ps si).foldlM (fun s b => g b.1 b.2 s) s := by
  induction ps generalizing si s with
  | nil => rfl
  | cons p ps ih =>
    rw [List.foldlM_cons, page_rows, List.foldlM_append]
    show Option.map Prod.snd (Option.bind (Option.map (fun s => (0, s))
      (for_loop si (components_size pages p) (fun j s => g p j s) s)) _) = _
    rw [for_loop_row pages p si g s]
    cases h : List.foldlM (fun s b => g b.1 b.2 s) s (page_row pages p si) with
    | none => rfl
    | some s2 =>
      simp only [Option.map_some', Option.bind_eq_bind, Option.some_bind]
      exact ih 0 s2

theorem rows_loop {α σ : Type} (pages : List (List α)) (g : Nat → Nat → σ → Option σ)
    (p n si : Nat) (s : σ) :
    (for_loop p n (fun p2 (st : Nat × σ) =>
        (for_loop st.1 (components_size pages p2) (fun j s => g p2 j s) st.2).map
          (fun s => (0, s))) (si, s)).map Prod.snd =
      (page_rows pages (List.range' p (n - p)) si).foldlM (fun s b => g b.1 b.2 s) s :=
  rows_loop_list pages g (List.range' p (n - p)) si s

/-- The loop nest of the collision phase is a fold over the slots and, for
each slot, over the slots that come later. -/
theorem pair_loops_eq {α σ τ : Type} (pages : List (List α))
    (enter : Nat → Nat → σ → Option τ) (visit : τ → Nat → Nat → σ → Option σ) (s : σ) :
    pair_loops pages enter visit s =
      (all_slots pages).foldlM (fun s a =>
        (enter a.1 a.2 s).bind (fun c =>
          (later_slots pages a).foldlM (fun s b => visit c b.1 b.2 s) s)) s := by
  have hbody : ∀ (p i : Nat) (s : σ),
      (enter p i s).bind (fun c1 =>
        (for_loop p pages.length (fun p2 (st : Nat × σ) =>
          (for_loop st.1 (components_size pages p2) (fun j s => visit c1 p2 j s) st.2).map
            (fun s => (0, s))) (i + 1, s)).map Prod.snd) =
      (enter p i s).bind (fun c =>
        (later_slots pages (p, i)).foldlM (fun s b => visit c b.1 b.2 s) s) := by
    intro p i s
    congr 1
    funext c
    exact rows_loop pages (visit c) p pages.length (i + 1) s
  have hrow : ∀ (p : Nat) (s : σ),
      for_loop 0 (components_size pages p) (fun i s =>
        (enter p i s).bind (fun c1 =>
          (for_loop p pages.length (fun p2 (st : Nat × σ) =>
            (for_loop st.1 (components_size pages p2) (fun j s => visit c1 p2 j s) st.2).map
              (fun s => (0, s))) (i + 1, s)).map Prod.snd)) s =
      (page_row pages p 0).foldlM (fun s a =>
        (enter a.1 a.2 s).bind (fun c =>
          (later_slots pages a).foldlM (fun s b => visit c b.1 b.2 s) s)) s := by
    intro p s
    rw [← for_loop_row pages p 0 (fun p i s => (enter p i s).bind (fun c =>
          (later_slots pages (p, i)).foldlM (fun s b => visit c b.1 b.2 s) s)) s]
    congr 1
    funext i s
    exact hbody p i s
  unfold pair_loops all_slots
  rw [foldlM_flatMap_option]
  show for_loop 0 pages.length _ s = _
  unfold for_loop
  congr 1
  funext s p
  exact hrow p s

theorem log_fold {β γ : Type} (f : β → List γ) (l : List β) (log : List γ) :
    l.foldlM (fun log b => some (log ++ f b)) log = some (log ++ l.flatMap f) := by
  induction l generalizing log with
  | nil => simp
  | cons b l ih =>
    simp only [List.foldlM_cons, Option.bind_eq_bind, Option.some_bind, ih, List.flatMap_cons,
      List.append_assoc]

theorem visited_pairs_eq {α : Type} (pages : List (List α)) :
    visited_pairs pages =
      some ((all_slots pages).flatMap (fun a => (later_slots pages a).map (fun b => (a, b)))) := by
  unfold visited_pairs
  rw [pair_loops_eq]
  have h : ∀ (a : Nat × Nat) (log : List ((Nat × Nat) × (Nat × Nat))),
      (later_slots pages a).foldlM (fun log b => some (log ++ [(a, (b.1, b.2))])) log =
        some (log ++ (later_slots pages a).map (fun b => (a, b))) := by
    intro a log
    rw [log_fold (fun (b : Nat × Nat) => [(a, (b.1, b.2))])]
    congr 2
    induction later_slots pages a with
    | nil => rfl
    | cons b l ih => simp only [List.flatMap_cons, List.map_cons, ih, List.singleton_append]
  simp only [Option.some_bind, h]
  rw [log_fold]
  rfl

theorem components_size_pos {α : Type} (pages : List (List α)) (p i : Nat)
    (h : i < components_size pages p) : p < pages.length := by
  unfold components_size at h
  split at h
  · next page hp =>
    by_contra hcon
    rw [List.getElem?_eq_none (by omega)] at hp
    exact absurd hp (by simp)
  · omega

theorem mem_page_row {α : Type} (pages : List (List α)) (p si : Nat) (b : Nat × Nat) :
    b ∈ page_row pages p si ↔ b.1 = p ∧ si ≤ b.2 ∧ b.2 < components_size pages p := by
  simp only [page_row, List.mem_map, List.mem_range'_1]
  constructor
  · rintro ⟨j, ⟨h1, h2⟩, rfl⟩
    exact ⟨rfl, h1, by omega⟩
  · rintro ⟨h1, h2, h3⟩
    exact ⟨b.2, ⟨h2, by omega⟩, by rw [← h1]⟩

theorem mem_page_rows {α : Type} (pages : List (List α)) (k p si : Nat) (b : Nat × Nat) :
    b ∈ page_rows pages (List.range' p k) si ↔
      (0 < k ∧ b.1 = p ∧ si ≤ b.2 ∧ b.2 < components_size pages p) ∨
      (p < b.1 ∧ b.1 < p + k ∧ b.2 < components_size pages b.1) := by
  induction k generalizing p si with
  | zero =>
    simp only [List.range'_zero, page_rows, List.not_mem_nil, false_iff]
    omega
  | succ k ih =>
    simp only [List.range'_succ, page_rows, List.mem_append, mem_page_row, ih]
    constructor
    · rintro (h | ⟨_, h1, _, h3⟩ | ⟨h1, h2, h3⟩)
      · exact Or.inl ⟨by omega, h⟩
      · exact Or.inr ⟨by omega, by omega, by rw [h1]; exact h3⟩
      · exact Or.inr ⟨by omega, by omega, h3⟩
    · rintro (⟨_, h⟩ | ⟨h1, h2, h3⟩)
      · exact Or.inl h
      · by_cases hb : b.1 = p + 1
        · exact Or.inr (Or.inl ⟨by omega, hb, by omega, by rw [← hb]; exact h3⟩)
        · exact Or.inr (Or.inr ⟨by omega, by omega, h3⟩)

theorem mem_all_slots {α : Type} (pages : List (List α)) (a : Nat × Nat) :
    a ∈ all_slots pages ↔ is_slot pages a := by
  simp only [all_slots, List.mem_flatMap, List.mem_range'_1, mem_page_row, is_slot]
  constructor
  · rintro ⟨p, _, h1, _, h3⟩
    rw [h1]; exact h3
  · intro h
    have := components_size_pos pages a.1 a.2 h
    exact ⟨a.1, ⟨by omega, by omega⟩, rfl, by omega, h⟩

theorem mem_later_slots {α : Type} (pages : List (List α)) (a b : Nat × Nat)
    (ha : is_slot pages a) :
    b ∈ later_slots pages a ↔ is_slot pages b ∧ slot_before a b := by
  have hlen := components_size_pos pages a.1 a.2 ha
  simp only [later_slots, mem_page_rows, is_slot, slot_before]
  constructor
  · rintro (⟨_, h1, h2, h3⟩ | ⟨h1, h2, h3⟩)
    · exact ⟨by rw [h1]; exact h3, Or.inr ⟨h1.symm, by omega⟩⟩
    · exact ⟨h3, Or.inl h1⟩
  · rintro ⟨h1, h2 | ⟨h2, h3⟩⟩
    · have := components_size_pos pages b.1 b.2 h1
      exact Or.inr ⟨h2, by omega, h1⟩
    · exact Or.inl ⟨by omega, h2.symm, by omega, by rw [h2]; exact h1⟩

theorem nodup_page_row {α : Type} (pages : List (List α)) (p si : Nat) :
    (page_row pages p si).Nodup := by
  unfold page_row
  refine List.Nodup.map ?_ (List.nodup_range' _ _)
  intro i j h
  exact (Prod.mk.inj h).2

theorem nodup_page_rows {α : Type} (pages : List (List α)) (k p si : Nat) :
    (page_rows pages (List.range' p k) si).Nodup := by
  induction k generalizing p si with
  | zero => simp [page_rows]
  | succ k ih =>
    simp only [List.range'_succ, page_rows]
    refine List.Nodup.append (nodup_page_row pages p si) (ih (p + 1) 0) ?_
    intro b hb1 hb2
    rw [mem_page_row] at hb1
    rw [mem_page_rows] at hb2
    omega

theorem nodup_all_slots {α : Type} (pages : List (List α)) : (all_slots pages).Nodup := by
  unfold all_slots
  rw [List.nodup_flatMap]
  refine ⟨fun p _ => nodup_page_row pages p 0, ?_⟩
  refine (List.nodup_range' 0 _).imp ?_
  intro p q hpq b hb1 hb2
  rw [mem_page_row] at hb1 hb2
  omega

theorem nodup_pairs {α : Type} (pages : List (List α)) :
    ((all_slots pages).flatMap (fun a => (later_slots pages a).map (fun b => (a, b)))).Nodup := by
  rw [List.nodup_flatMap]
  refine ⟨fun a _ => ?_, ?_⟩
  · refine List.Nodup.map ?_ (nodup_page_rows pages _ _ _)
    intro b c h
    exact (Prod.mk.inj h).2
  · refine (nodup_all_slots pages).imp ?_
    intro a c hac x hx1 hx2
    simp only [List.mem_map] at hx1 hx2
    obtain ⟨_, _, rfl⟩ := hx1
    obtain ⟨_, _, h⟩ := hx2
    exact hac (Prod.mk.inj h).1.symm


/-! ## The precedence of `handle_dirs` -/

theorem handle_dirs_code_order {F : Type} [Scalar F] (cb : vec3_t F → F)
    (old_pos new_pos : vec3_t F) :
    handle_dirs cb old_pos new_pos = hold_mask (selected_hold code_order cb old_pos new_pos) := by
  simp only [handle_dirs, selected_hold, first_clear, code_order, List.find?_cons,
    List.find?_nil, hold_point, hold_mask, vec3, Bool.false_eq_true, if_false, if_true]
  repeat' split
  all_goals simp_all

theorem handle_cols_reverts {F : Type} [Scalar F] [LawfulScalar F]
    (node : Option (vec3_t F → vec3_t F)) (cb : vec3_t F → F) (o new_pos old_pos : vec3_t F)
    (hge : Scalar.ge (cb (vec3_add (node_offset node o) new_pos)) (Scalar.lit 0) = true) :
    (handle_cols_for_offset node cb o new_pos old_pos).2 =
      hold_point (selected_hold code_order cb (vec3_add (node_offset node o) old_pos)
        (vec3_add (node_offset node o) new_pos)) old_pos new_pos := by
  unfold handle_cols_for_offset
  simp only [hge, if_true, handle_dirs_code_order]
  generalize selected_hold code_order cb _ _ = h
  rcases h with ⟨_ | _, _ | _, _ | _⟩ <;>
    simp [hold_mask, hold_point, vec3, LawfulScalar.eq_one_zero, LawfulScalar.eq_zero_zero]


/-! ## Force integration -/

/-- In every arithmetic, `c_physics_handle_forces` adds the scaled forces of
exactly the active force components, in page-then-slot order. -/
theorem handle_forces_active_fold {F : Type} [Scalar F] (forces : List (List (c_force_t F)))
    (vel : vec3_t F) (dt : F) :
    c_physics_handle_forces forces vel dt =
      (forces.flatten.filter (fun fc => fc.active)).foldl
        (fun vel fc => vec3_add vel (vec3_scale fc.force dt)) vel := by
  unfold c_physics_handle_forces
  rw [← List.foldl_flatten]
  generalize forces.flatten = l
  induction l generalizing vel with
  | nil => rfl
  | cons fc l ih =>
    rw [List.foldl_cons, ih]
    cases h : fc.active
    · simp [List.filter_cons, h]
    · simp [List.filter_cons, h]


theorem force_fold_flat (l : List (c_force_t ℚ)) (vel : vec3_t ℚ) (dt : ℚ) :
    l.foldl (fun vel fc => if fc.active then vec3_add vel (vec3_scale fc.force dt) else vel) vel =
      ⟨vel.x + ((l.filter (fun fc => fc.active)).map (fun fc => fc.force.x)).sum * dt,
       vel.y + ((l.filter (fun fc => fc.active)).map (fun fc => fc.force.y)).sum * dt,
       vel.z + ((l.filter (fun fc => fc.active)).map (fun fc => fc.force.z)).sum * dt⟩ := by
  induction l generalizing vel with
  | nil => simp
  | cons fc l ih =>
    rw [List.foldl_cons, ih]
    by_cases h : fc.active
    · simp only [h, if_true, vec3_add, vec3_scale, Scalar.add, Scalar.mul, List.filter_cons,
        List.map_cons, List.sum_cons, vec3_t.mk.injEq]
      refine ⟨?_, ?_, ?_⟩ <;> ring
    · simp [h]

theorem handle_forces_sum (forces : List (List (c_force_t ℚ))) (vel : vec3_t ℚ) (dt : ℚ) :
    c_physics_handle_forces forces vel dt =
      vec3_add vel (vec3_scale (active_force_sum forces) dt) := by
  unfold c_physics_handle_forces
  rw [← List.foldl_flatten, force_fold_flat]
  rfl

theorem ct_get_at_map {α β : Type} (f : α → β) (pages : List (List α)) (p i : Nat) :
    ct_get_at (pages.map (fun page => page.map f)) p i = (ct_get_at pages p i).map f := by
  unfold ct_get_at
  rw [List.getElem?_map]
  cases pages[p]? with
  | none => rfl
  | some page => simp [List.getElem?_map]


/-! ## The mouse ownership stack -/

/-- The downward shifting loop of `candle_grab_mouse`, over `n` slots. -/
theorem grab_shift_spec (n : Nat) (self : candle_t) :
    (∀ k, ((List.range' 1 n).reverse.foldl (fun self i => copy_slot self i (i - 1)) self).mouse_owners k
      = if 1 ≤ k ∧ k ≤ n then self.mouse_owners (k - 1) else self.mouse_owners k) ∧
    (∀ k, ((List.range' 1 n).reverse.foldl (fun self i => copy_slot self i (i - 1)) self).mouse_visible k
      = if 1 ≤ k ∧ k ≤ n then self.mouse_visible (k - 1) else self.mouse_visible k) ∧
    ((List.range' 1 n).reverse.foldl (fun self i => copy_slot self i (i - 1)) self).mx = self.mx ∧
    ((List.range' 1 n).reverse.foldl (fun self i => copy_slot self i (i - 1)) self).my = self.my ∧
    ((List.range' 1 n).reverse.foldl (fun self i => copy_slot self i (i - 1)) self).mo_x = self.mo_x ∧
    ((List.range' 1 n).reverse.foldl (fun self i => copy_slot self i (i - 1)) self).mo_y = self.mo_y ∧
    ((List.range' 1 n).reverse.foldl (fun self i => copy_slot self i (i - 1)) self).sdl = self.sdl := by
  induction n generalizing self with
  | zero =>
    refine ⟨fun k => ?_, fun k => ?_, rfl, rfl, rfl, rfl, rfl⟩ <;>
      · have hk : ¬ (1 ≤ k ∧ k ≤ 0) := by omega
        simp only [List.range'_zero, List.reverse_nil, List.foldl_nil, if_neg hk]
  | succ n ih =>
    obtain ⟨h1, h2, h3, h4, h5, h6, h7⟩ := ih (copy_slot self (n + 1) n)
    have hl : (List.range' 1 (n + 1)).reverse = (n + 1) :: (List.range' 1 n).reverse := by
      rw [List.range'_1_concat, List.reverse_append, Nat.add_comm 1 n]; rfl
    simp only [hl, List.foldl_cons, Nat.add_sub_cancel]
    refine ⟨fun k => ?_, fun k => ?_, h3, h4, h5, h6, h7⟩
    · rw [h1 k]
      simp only [copy_slot, array_set]
      by_cases hk : k = n + 1
      · subst hk; simp
      · by_cases hk2 : 1 ≤ k ∧ k ≤ n
        · have : k - 1 ≠ n + 1 := by omega
          have h3 : 1 ≤ k ∧ k ≤ n + 1 := by omega
          simp [hk2, this, h3]
        · have h3 : ¬ (1 ≤ k ∧ k ≤ n + 1) := by omega
          simp [hk2, hk, h3]
    · rw [h2 k]
      simp only [copy_slot, array_set]
      by_cases hk : k = n + 1
      · subst hk; simp
      · by_cases hk2 : 1 ≤ k ∧ k ≤ n
        · have : k - 1 ≠ n + 1 := by omega
          have h3 : 1 ≤ k ∧ k ≤ n + 1 := by omega
          simp [hk2, this, h3]
        · have h3 : ¬ (1 ≤ k ∧ k ≤ n + 1) := by omega
          simp [hk2, hk, h3]

/-- The upward shifting loop of `candle_release_mouse`, over `n` slots from
slot `i`. -/
theorem release_shift_spec (n : Nat) (i : Nat) (self : candle_t) :
    (∀ k, ((List.range' i n).foldl (fun self k => copy_slot self k (k + 1)) self).mouse_owners k
      = if i ≤ k ∧ k < i + n then self.mouse_owners (k + 1) else self.mouse_owners k) ∧
    (∀ k, ((List.range' i n).foldl (fun self k => copy_slot self k (k + 1)) self).mouse_visible k
      = if i ≤ k ∧ k < i + n then self.mouse_visible (k + 1) else self.mouse_visible k) ∧
    ((List.range' i n).foldl (fun self k => copy_slot self k (k + 1)) self).mx = self.mx ∧
    ((List.range' i n).foldl (fun self k => copy_slot self k (k + 1)) self).my = self.my ∧
    ((List.range' i n).foldl (fun self k => copy_slot self k (k + 1)) self).mo_x = self.mo_x ∧
    ((List.range' i n).foldl (fun self k => copy_slot self k (k + 1)) self).mo_y = self.mo_y ∧
    ((List.range' i n).foldl (fun self k => copy_slot self k (k + 1)) self).sdl = self.sdl := by
  induction n generalizing i self with
  | zero =>
    refine ⟨fun k => ?_, fun k => ?_, rfl, rfl, rfl, rfl, rfl⟩ <;>
      · have hk : ¬ (i ≤ k ∧ k < i + 0) := by omega
        simp only [List.range'_zero, List.foldl_nil, if_neg hk]
  | succ n ih =>
    obtain ⟨h1, h2, h3, h4, h5, h6, h7⟩ := ih (i + 1) (copy_slot self i (i + 1))
    simp only [List.range'_succ, List.foldl_cons]
    refine ⟨fun k => ?_, fun k => ?_, h3, h4, h5, h6, h7⟩
    · rw [h1 k]
      simp only [copy_slot, array_set]
      by_cases hk : k = i
      · subst hk; simp
      · by_cases hk2 : i + 1 ≤ k ∧ k < i + 1 + n
        · have : k + 1 ≠ i := by omega
          have h3 : i ≤ k ∧ k < i + (n + 1) := by omega
          simp [hk2, this, h3]
        · have h3 : ¬ (i ≤ k ∧ k < i + (n + 1)) := by omega
          simp [hk2, hk, h3]
    · rw [h2 k]
      simp only [copy_slot, array_set]
      by_cases hk : k = i
      · subst hk; simp
      · by_cases hk2 : i + 1 ≤ k ∧ k < i + 1 + n
        · have : k + 1 ≠ i := by omega
          have h3 : i ≤ k ∧ k < i + (n + 1) := by omega
          simp [hk2, this, h3]
        · have h3 : ¬ (i ≤ k ∧ k < i + (n + 1)) := by omega
          simp [hk2, hk, h3]

/-- One turn of the outer loop of `candle_release_mouse`: a match ends the
loop once the slots are shifted, because the inner loop leaves `i` at 15. -/
theorem release_loop_step (ent : entity_t) (reset : Int) (self : candle_t) (i : Nat) :
    release_loop ent reset self i =
      if i < 16 then
        if self.mouse_owners i = ent then (release_shift (release_effects reset self) i).1
        else release_loop ent reset self (i + 1)
      else self := by
  rw [release_loop]
  split
  · split
    · rw [release_loop]
      have h : ¬ ((release_shift (release_effects reset self) i).2 + 1 < 16) := by
        simp only [release_shift]; omega
      simp only [h, if_false]
    · rfl
  · rfl

theorem release_loop_skip (ent : entity_t) (reset : Int) (self : candle_t) (k : Nat)
    (hk : k ≤ 16) (hfirst : ∀ j, j < k → self.mouse_owners j ≠ ent) :
    release_loop ent reset self 0 = release_loop ent reset self k := by
  induction k with
  | zero => rfl
  | succ k ih =>
    rw [ih (by omega) (fun j hj => hfirst j (by omega)), release_loop_step ent reset self k]
    have h1 : k < 16 := by omega
    rw [if_pos h1, if_neg (hfirst k (by omega))]

/-- The outer loop of `candle_release_mouse` when the first slot owned by
`ent` is slot `k`. -/
theorem release_loop_found (ent : entity_t) (reset : Int) (self : candle_t) (k : Nat)
    (hk : k < 16) (hfirst : ∀ j, j < k → self.mouse_owners j ≠ ent)
    (hown : self.mouse_owners k = ent) :
    release_loop ent reset self 0 = (release_shift (release_effects reset self) k).1 := by
  rw [release_loop_skip ent reset self k (by omega) hfirst, release_loop_step ent reset self k,
    if_pos hk, if_pos hown]

/-- The outer loop of `candle_release_mouse` when `ent` owns no slot. -/
theorem release_loop_absent (ent : entity_t) (reset : Int) (self : candle_t)
    (hfirst : ∀ j, j < 16 → self.mouse_owners j ≠ ent) :
    release_loop ent reset self 0 = self := by
  rw [release_loop_skip ent reset self 16 (by omega) hfirst, release_loop_step ent reset self 16]
  simp

theorem release_effects_owners (reset : Int) (self : candle_t) :
    (release_effects reset self).mouse_owners = self.mouse_owners ∧
    (release_effects reset self).mouse_visible = self.mouse_visible := by
  unfold release_effects
  simp only []
  split <;> exact ⟨rfl, rfl⟩

/-- The owners after a release that finds `ent` first in slot `k`: the slots
from `k` to 14 take the owner of the next slot, slot 15 keeps its owner. -/
theorem release_found_owners (ent : entity_t) (reset : Int) (self : candle_t) (k : Nat)
    (hk : k < 16) (hfirst : ∀ j, j < k → self.mouse_owners j ≠ ent)
    (hown : self.mouse_owners k = ent) (i : Nat) :
    (candle_release_mouse self ent reset).mouse_owners i =
      if k ≤ i ∧ i < 15 then self.mouse_owners (i + 1) else self.mouse_owners i := by
  simp only [candle_release_mouse]
  rw [release_loop_found ent reset self k hk hfirst hown]
  simp only [release_shift]
  rw [(release_shift_spec (15 - k) k (release_effects reset self)).1 i,
    (release_effects_owners reset self).1]
  have : (k ≤ i ∧ i < k + (15 - k)) ↔ (k ≤ i ∧ i < 15) := by omega
  simp only [this]

/-- A release removes the entry of an entity that owns exactly one slot, when
that slot is not the last one. -/
theorem release_removes_before_last (ent : entity_t) (reset : Int) (self : candle_t) (k : Nat)
    (hk : k < 15) (hown : self.mouse_owners k = ent)
    (honly : ∀ j, j < 16 → j ≠ k → self.mouse_owners j ≠ ent) (i : Nat) (hi : i < 16) :
    (candle_release_mouse self ent reset).mouse_owners i ≠ ent := by
  rw [release_found_owners ent reset self k (by omega) (fun j hj => honly j (by omega) (by omega))
    hown i]
  split
  · next h => exact honly (i + 1) (by omega) (by omega)
  · next h =>
    have : i ≠ k := by omega
    exact honly i hi this


set_option maxRecDepth 100000 in
/-- The slots of `full_stack` are those that 16 grabs leave. -/
theorem sixteen_grabs_slots :
    ∀ i, i < 16 → sixteen_grabs.mouse_owners i = full_stack.mouse_owners i ∧
      sixteen_grabs.mouse_visible i = full_stack.mouse_visible i := by
  decide

/-! ## Worlds at rest -/

theorem handle_forces_inactive {F : Type} [Scalar F] (forces : List (List (c_force_t F)))
    (vel : vec3_t F) (dt : F) (h : ∀ page ∈ forces, ∀ fc ∈ page, fc.active = false) :
    c_physics_handle_forces forces vel dt = vel := by
  unfold c_physics_handle_forces
  induction forces with
  | nil => rfl
  | cons page pages ih =>
    rw [List.foldl_cons]
    have hpage : page.foldl (fun vel fc =>
        if fc.active then vec3_add vel (vec3_scale fc.force dt) else vel) vel = vel := by
      have hp := h page (List.mem_cons_self _ _)
      clear ih h
      induction page with
      | nil => rfl
      | cons fc fcs ih2 =>
        rw [List.foldl_cons, hp fc (List.mem_cons_self _ _)]
        exact ih2 (fun fc2 h2 => hp fc2 (List.mem_cons_of_mem _ h2))
    rw [hpage]
    exact ih (fun p hp => h p (List.mem_cons_of_mem _ hp))

theorem flt_add_zero (a : Flt) (h : a.isFinite = true) : Flt.add a (Flt.fin 0) = a := by
  cases a <;> simp_all [Flt.isFinite, Flt.add]

theorem flt_zero_mul (d : Flt) (h : d.isFinite = true) :
    Flt.mul (Flt.fin 0) d = Flt.fin 0 := by
  cases d <;> simp_all [Flt.isFinite, Flt.mul]

theorem flt_sub_self (a : Flt) (h : a.isFinite = true) : Flt.sub a a = Flt.fin 0 := by
  cases a <;> simp_all [Flt.isFinite, Flt.sub, Flt.add, Flt.neg]

theorem integrate_rests (w : World Flt) (dt : Flt) (vc : c_velocity_t Flt)
    (hforce : ∀ page ∈ w.forces, ∀ fc ∈ page, fc.active = false)
    (hvel : vc.velocity = vec3_zero) (hdt : dt.isFinite = true)
    (hpos : vec3_finite (w.pos vc.entity)) :
    rests_at w.pos (integrate w dt vc) := by
  have hmove : vec3_add (w.pos vc.entity) (vec3_scale (vec3_zero : vec3_t Flt) dt) =
      w.pos vc.entity := by
    obtain ⟨hx, hy, hz⟩ := hpos
    simp only [vec3_add, vec3_scale, vec3_zero, Scalar.add, Scalar.mul, Scalar.lit,
      flt_zero_mul dt hdt, flt_add_zero _ hx, flt_add_zero _ hy, flt_add_zero _ hz]
  simp only [rests_at, integrate, handle_forces_inactive w.forces _ dt hforce, hvel, hmove,
    and_self]

theorem stop_axes_zero {F : Type} [Scalar F] (c pre : vec3_t F) :
    stop_axes c pre vec3_zero = vec3_zero := by
  unfold stop_axes vec3_zero
  simp only []
  split <;> split <;> split <;> rfl

theorem vec3_ext {F : Type} (a b : vec3_t F) (hx : a.x = b.x) (hy : a.y = b.y) (hz : a.z = b.z) :
    a = b := by
  cases a; cases b; simp_all

theorem vel_store_rests (pos : entity_t → vec3_t Flt) (e : entity_t) (v : c_velocity_t Flt)
    (vels : List (List (c_velocity_t Flt))) (hv : rests_at pos v)
    (h : ∀ u ∈ vels.flatten, rests_at pos u) :
    ∀ u ∈ (vel_store e v vels).flatten, rests_at pos u := by
  intro u hu
  rw [vel_store_flatten] at hu
  rcases page_store_mem e v u _ hu with h1 | h1
  · rw [h1]; exact hv
  · exact h u h1

theorem full_stop_rests (pos : entity_t → vec3_t Flt) (e : entity_t)
    (vels : List (List (c_velocity_t Flt))) (h : ∀ u ∈ vels.flatten, rests_at pos u) :
    ∀ u ∈ (full_stop e vels).flatten, rests_at pos u := by
  unfold full_stop
  split
  · next v hv =>
    obtain ⟨_, h2, h3, _⟩ := h v (c_velocity_mem vels e v hv)
    exact vel_store_rests pos e _ vels ⟨rfl, h2, h3, h2⟩ h
  · exact h

theorem handle_collisions_rests (w : World Flt) (c1 c2 : c_rigid_body_t Flt)
    (vels vels2 : List (List (c_velocity_t Flt)))
    (h : ∀ u ∈ vels.flatten, rests_at w.pos u)
    (hstep : c_physics_handle_collisions w c1 c2 vels = some vels2) :
    ∀ u ∈ vels2.flatten, rests_at w.pos u := by
  unfold c_physics_handle_collisions at hstep
  split at hstep
  · next c d cb hsel =>
    unfold probe_branch at hstep
    split at hstep
    · exact absurd hstep (by simp)
    · next vc hvc =>
      rw [← Option.some.inj hstep]
      obtain ⟨h1, h2, h3, h4⟩ := h vc (c_velocity_mem vels _ vc hvc)
      obtain ⟨hx, hy, hz⟩ := probe_loop_axes (w.node d.entity) cb (probe_offsets d.offset)
        vc.computed_pos vc.pre_movement_pos
      refine vel_store_rests w.pos _ _ vels ⟨?_, h2, h3, ?_⟩ h
      · show stop_axes _ _ vc.velocity = vec3_zero
        rw [h1]; exact stop_axes_zero _ _
      · show (probe_loop _ _ _ _ _).2 = w.pos vc.entity
        rw [h2, h4] at hx hy hz ⊢
        exact vec3_ext _ _ (by rcases hx with h | h <;> exact h)
          (by rcases hy with h | h <;> exact h) (by rcases hz with h | h <;> exact h)
  · rw [← Option.some.inj hstep]
    unfold coarse_branch
    split
    · exact full_stop_rests _ _ _ (full_stop_rests _ _ _ h)
    · exact h

theorem c_velocity_store {F : Type} (vels : List (List (c_velocity_t F))) (e e2 : entity_t)
    (v : c_velocity_t F) (hv : v.entity = e) :
    (c_velocity (vel_store e v vels) e2).isSome = (c_velocity vels e2).isSome := by
  by_cases h : e2 = e
  · subst h
    unfold c_velocity
    rw [vel_store_flatten, page_store_find_self _ v hv]
    cases List.find? (fun u => decide (u.entity = e2)) vels.flatten <;> rfl
  · rw [c_velocity_store_other vels e e2 v hv h]

theorem full_stop_present {F : Type} [Scalar F] (vels : List (List (c_velocity_t F)))
    (e e2 : entity_t) :
    (c_velocity (full_stop e vels) e2).isSome = (c_velocity vels e2).isSome := by
  unfold full_stop
  split
  · next v hv => exact c_velocity_store vels e e2 _ (c_velocity_entity vels e v hv)
  · rfl

theorem handle_collisions_present {F : Type} [Scalar F] (w : World F)
    (c1 c2 : c_rigid_body_t F) (vels vels2 : List (List (c_velocity_t F)))
    (hstep : c_physics_handle_collisions w c1 c2 vels = some vels2) (e : entity_t) :
    (c_velocity vels2 e).isSome = (c_velocity vels e).isSome := by
  unfold c_physics_handle_collisions at hstep
  split at hstep
  · next c d cb hsel =>
    unfold probe_branch at hstep
    split at hstep
    · exact absurd hstep (by simp)
    · next vc hvc =>
      rw [← Option.some.inj hstep]
      exact c_velocity_store vels _ e _ (c_velocity_entity vels _ vc hvc)
  · rw [← Option.some.inj hstep]
    unfold coarse_branch
    split
    · rw [full_stop_present, full_stop_present]
    · rfl

theorem handle_collisions_some {F : Type} [Scalar F] (w : World F)
    (c1 c2 : c_rigid_body_t F) (vels : List (List (c_velocity_t F)))
    (h : ∀ c d cb, select_probe c1 c2 = some (c, d, cb) →
      (c_velocity vels d.entity).isSome = true) :
    ∃ vels2, c_physics_handle_collisions w c1 c2 vels = some vels2 := by
  unfold c_physics_handle_collisions
  split
  · next c d cb hsel =>
    have hd := h c d cb hsel
    unfold probe_branch
    split
    · next hnone => rw [hnone] at hd; exact absurd hd (by simp)
    · exact ⟨_, rfl⟩
  · exact ⟨_, rfl⟩

theorem foldlM_invariant {α σ : Type} (P : σ → Prop) (f : σ → α → Option σ) (l : List α)
    (s : σ) (hs : P s) (hf : ∀ s x, x ∈ l → P s → ∃ s2, f s x = some s2 ∧ P s2) :
    ∃ s2, l.foldlM f s = some s2 ∧ P s2 := by
  induction l generalizing s with
  | nil => exact ⟨s, rfl, hs⟩
  | cons x xs ih =>
    obtain ⟨s1, h1, hp1⟩ := hf s x (List.mem_cons_self _ _) hs
    rw [List.foldlM_cons, h1]
    exact ih s1 hp1 (fun s y hy hp => hf s y (List.mem_cons_of_mem _ hy) hp)

theorem ct_get_at_of_slot {α : Type} (pages : List (List α)) (a : Nat × Nat)
    (h : is_slot pages a) : ∃ c, ct_get_at pages a.1 a.2 = some c ∧ c ∈ pages.flatten := by
  unfold is_slot components_size at h
  unfold ct_get_at
  cases hp : pages[a.1]? with
  | none => rw [hp] at h; simp at h
  | some page =>
    rw [hp] at h
    simp only at h ⊢
    refine ⟨page[a.2], List.getElem?_eq_getElem h, ?_⟩
    rw [List.mem_flatten]
    exact ⟨page, List.getElem?_mem hp, List.getElem_mem h⟩

theorem collide_all_calm (w : World Flt) (vels : List (List (c_velocity_t Flt)))
    (hsafe : moving_has_velocity w) (hcalm : calm w vels) :
    ∃ vels2, collide_all w vels = some vels2 ∧ calm w vels2 := by
  unfold collide_all
  rw [pair_loops_eq]
  refine foldlM_invariant (calm w) _ _ vels hcalm ?_
  intro s a ha hs
  rw [mem_all_slots] at ha
  obtain ⟨c1, hc1, hmem1⟩ := ct_get_at_of_slot w.bodies a ha
  simp only [hc1, Option.some_bind]
  refine foldlM_invariant (calm w) _ _ s hs ?_
  intro s2 b hb hs2
  rw [mem_later_slots w.bodies a b ha] at hb
  obtain ⟨c2, hc2, hmem2⟩ := ct_get_at_of_slot w.bodies b hb.1
  simp only [hc2]
  split
  · exact ⟨s2, rfl, hs2⟩
  · next hcond =>
    have hv : (c_velocity w.vels c1.entity).isSome = true ∨
        (c_velocity w.vels c2.entity).isSome = true := by
      rw [← hs.2 c1.entity, ← hs2.2 c2.entity]
      cases h1 : (c_velocity s c1.entity).isSome <;>
        cases h2 : (c_velocity s2 c2.entity).isSome <;> simp_all
    obtain ⟨s3, hs3⟩ := handle_collisions_some w c1 c2 s2 (fun c d cb hsel => by
      rw [hs2.2 d.entity]
      exact hsafe c1 hmem1 c2 hmem2 c d cb hsel hv)
    refine ⟨s3, hs3, handle_collisions_rests w c1 c2 s2 s3 hs2.1 hs3, ?_⟩
    intro e
    rw [handle_collisions_present w c1 c2 s2 s3 hs3 e]
    exact hs2.2 e

theorem integrate_all_calm (w : World Flt) (dt : Flt)
    (hforce : ∀ page ∈ w.forces, ∀ fc ∈ page, fc.active = false)
    (hvel : ∀ vc ∈ w.vels.flatten, vc.velocity = vec3_zero)
    (hdt : dt.isFinite = true)
    (hpos : ∀ vc ∈ w.vels.flatten, vec3_finite (w.pos vc.entity)) :
    calm w (integrate_all w dt) := by
  have hflat : (integrate_all w dt).flatten = w.vels.flatten.map (integrate w dt) := by
    unfold integrate_all
    rw [List.map_flatten]
  constructor
  · intro u hu
    rw [hflat] at hu
    obtain ⟨v, hv, rfl⟩ := List.mem_map.mp hu
    exact integrate_rests w dt v hforce (hvel v hv) hdt (hpos v hv)
  · intro e
    unfold c_velocity
    rw [hflat, List.find?_map]
    have : ((fun u : c_velocity_t Flt => decide (u.entity = e)) ∘ integrate w dt) =
        (fun u => decide (u.entity = e)) := by
      funext u; rfl
    rw [this]
    cases List.find? (fun u => decide (u.entity = e)) w.vels.flatten <;> rfl

theorem commit_rests (pos : entity_t → vec3_t Flt) (vc : c_velocity_t Flt)
    (h : rests_at pos vc) (hpos : vec3_finite (pos vc.entity)) :
    (commit vc).normal = vec3_zero := by
  obtain ⟨_, _, h3, h4⟩ := h
  obtain ⟨hx, hy, hz⟩ := hpos
  simp only [commit, h3, h4, vec3_sub, Scalar.sub, flt_sub_self _ hx, flt_sub_self _ hy,
    flt_sub_self _ hz, Scalar.eq, Flt.eq]
  simp [vec3_zero, Scalar.lit]

theorem commit_pos_rests (pos : entity_t → vec3_t Flt) (vels : List (List (c_velocity_t Flt)))
    (h : ∀ u ∈ vels.flatten, u.computed_pos = pos u.entity) :
    commit_pos vels pos = pos := by
  unfold commit_pos
  rw [← List.foldl_flatten]
  generalize vels.flatten = l at h
  induction l with
  | nil => rfl
  | cons u us ih =>
    rw [List.foldl_cons]
    have hu : c_spacial_set_pos pos u.entity u.computed_pos = pos := by
      funext e
      unfold c_spacial_set_pos
      split
      · next he => rw [he, h u (List.mem_cons_self _ _)]
      · rfl
    rw [hu]
    exact ih (fun v hv => h v (List.mem_cons_of_mem _ hv))

/-- Idempotence at rest.  With no active force, zero velocities, a finite
`dt`, finite positions of the velocity-bearing entities, and a velocity
component on the moving body of every pair that the probe branch can
receive, one run of `c_physics_update` completes, leaves every spatial
position as it was and sets every normal to the zero vector, whatever rigid
bodies, probes and intersection results are present. -/
theorem update_at_rest (w : World Flt) (dt : Flt)
    (hforce : ∀ page ∈ w.forces, ∀ fc ∈ page, fc.active = false)
    (hvel : ∀ vc ∈ w.vels.flatten, vc.velocity = vec3_zero)
    (hdt : dt.isFinite = true)
    (hpos : ∀ vc ∈ w.vels.flatten, vec3_finite (w.pos vc.entity))
    (hsafe : moving_has_velocity w) :
    ∃ w2, c_physics_update w dt = some w2 ∧ w2.pos = w.pos ∧
      (∀ e, (c_velocity w2.vels e).isSome = (c_velocity w.vels e).isSome) ∧
      ∀ vc ∈ w2.vels.flatten, vc.normal = vec3_zero := by
  obtain ⟨vels2, h2, hrest, hpres⟩ := collide_all_calm w (integrate_all w dt) hsafe
    (integrate_all_calm w dt hforce hvel hdt hpos)
  have hfin : ∀ u ∈ vels2.flatten, vec3_finite (w.pos u.entity) := by
    intro u hu
    have hsome : (c_velocity vels2 u.entity).isSome = true := by
      unfold c_velocity
      rw [List.find?_isSome]
      exact ⟨u, hu, by simp⟩
    rw [hpres u.entity] at hsome
    obtain ⟨v, hv⟩ := Option.isSome_iff_exists.mp hsome
    have := hpos v (c_velocity_mem w.vels _ v hv)
    rw [c_velocity_entity w.vels _ v hv] at this
    exact this
  have hflat : (vels2.map (fun page => page.map commit)).flatten = vels2.flatten.map commit := by
    rw [List.map_flatten]
  have hupd : c_physics_update w dt =
      some { w with vels := vels2.map (fun page => page.map commit),
                    pos := commit_pos vels2 w.pos } := by
    simp only [c_physics_update, h2]
  refine ⟨_, hupd, ?_, ?_, ?_⟩
  · exact commit_pos_rests w.pos vels2 (fun u hu => (hrest u hu).2.2.2)
  · intro e
    show (c_velocity (vels2.map (fun page => page.map commit)) e).isSome = _
    rw [← hpres e]
    unfold c_velocity
    rw [hflat, List.find?_map]
    have : ((fun u : c_velocity_t Flt => decide (u.entity = e)) ∘ commit) =
        (fun u => decide (u.entity = e)) := by
      funext u; rfl
    rw [this]
    cases List.find? (fun u => decide (u.entity = e)) vels2.flatten <;> rfl
  · intro vc hvc
    change vc ∈ (vels2.map (fun page => page.map commit)).flatten at hvc
    rw [hflat] at hvc
    obtain ⟨u, hu, rfl⟩ := List.mem_map.mp hvc
    exact commit_rests w.pos u (hrest u hu) (hfin u hu)

/-! ## The commit phase -/

/-- The normal after the commit of one velocity component: the difference
`computed_pos - pre_collision_pos`, or the zero vector when the `x` of that
difference differs from itself. -/
theorem commit_normal {F : Type} [Scalar F] (vc : c_velocity_t F) :
    (commit vc).normal =
      (if Scalar.eq (vec3_sub vc.computed_pos vc.pre_collision_pos).x
          (vec3_sub vc.computed_pos vc.pre_collision_pos).x = true
        then vec3_sub vc.computed_pos vc.pre_collision_pos else vec3_zero) ∧
    (commit vc).entity = vc.entity ∧ (commit vc).computed_pos = vc.computed_pos ∧
    (commit vc).velocity = vc.velocity := by
  refine ⟨?_, rfl, rfl, rfl⟩
  unfold commit
  simp only []
  cases Scalar.eq (vec3_sub vc.computed_pos vc.pre_collision_pos).x
    (vec3_sub vc.computed_pos vc.pre_collision_pos).x <;> simp

theorem commit_fold_value {F : Type} (l : List (c_velocity_t F)) (pos : entity_t → vec3_t F)
    (e : entity_t) :
    l.foldl (fun pos vc => c_spacial_set_pos pos vc.entity vc.computed_pos) pos e = pos e ∨
    ∃ u ∈ l, u.entity = e ∧
      l.foldl (fun pos vc => c_spacial_set_pos pos vc.entity vc.computed_pos) pos e =
        u.computed_pos := by
  induction l generalizing pos with
  | nil => exact Or.inl rfl
  | cons u us ih =>
    rw [List.foldl_cons]
    rcases ih (c_spacial_set_pos pos u.entity u.computed_pos) with h | ⟨v, hv, hve, hval⟩
    · by_cases he : e = u.entity
      · refine Or.inr ⟨u, List.mem_cons_self _ _, he.symm, ?_⟩
        rw [h]; simp [c_spacial_set_pos, he]
      · refine Or.inl ?_
        rw [h]; simp [c_spacial_set_pos, he]
    · exact Or.inr ⟨v, List.mem_cons_of_mem _ hv, hve, hval⟩

/-- The position written by the last phase for the entity of a velocity
component, when no other velocity component of that entity holds another
candidate position. -/
theorem commit_pos_written {F : Type} (vels : List (List (c_velocity_t F)))
    (pos : entity_t → vec3_t F) (vc : c_velocity_t F) (hmem : vc ∈ vels.flatten)
    (huniq : ∀ u ∈ vels.flatten, u.entity = vc.entity → u.computed_pos = vc.computed_pos) :
    commit_pos vels pos vc.entity = vc.computed_pos := by
  unfold commit_pos
  rw [← List.foldl_flatten]
  generalize vels.flatten = l at hmem huniq
  induction l generalizing pos with
  | nil => exact absurd hmem (List.not_mem_nil _)
  | cons u us ih =>
    rw [List.foldl_cons]
    by_cases hin : vc ∈ us
    · exact ih _ hin (fun v hv => huniq v (List.mem_cons_of_mem _ hv))
    · have hvu : vc = u := by
        rcases List.mem_cons.mp hmem with h | h
        · exact h
        · exact absurd h hin
      rcases commit_fold_value us (c_spacial_set_pos pos u.entity u.computed_pos) vc.entity
        with h | ⟨v, hv, hve, hval⟩
      · rw [h, hvu]; simp [c_spacial_set_pos]
      · rw [hval]; exact huniq v (List.mem_cons_of_mem _ hv) hve

/-- A tick of `probed_mover_world` dereferences a null velocity pointer: the
pair is passed on because the first body has a velocity component, the probe
of the first body makes the second body the moving one, and the second body
has no velocity component. -/
theorem physics_update_null_velocity :
    (c_physics_update probed_mover_world (Flt.fin 1)).isNone = true := by
  with_unfolding_all decide

/-! ## Single precision -/

/-- The integer chosen by `nearest_even` is within one half of `n / d`. -/
theorem nearest_even_close (n d : Nat) (hd : 0 < d) :
    2 * n ≤ 2 * (d * F32.nearest_even n d) + d ∧ 2 * (d * F32.nearest_even n d) ≤ 2 * n + d := by
  have h1 := Nat.div_add_mod n d
  have h2 := Nat.mod_lt n hd
  unfold F32.nearest_even
  generalize n / d = q at h1 ⊢
  generalize n % d = r at h1 h2 ⊢
  subst h1
  split
  · constructor <;> nlinarith
  · split
    · constructor <;> nlinarith
    · split
      · constructor <;> nlinarith
      · constructor <;> nlinarith

/-- Roundings to single precision: the decimal 0.1; the ties at `2 ^ 24 + 1`
(down, to the even significand) and `2 ^ 24 + 3` (up); `10 ^ 8 + 1`; the
largest value and the overflow threshold; the smallest value and half of
it. -/
theorem round_samples :
    F32.round (1 / 10) = Flt.fin (13421773 / 2 ^ 27) ∧
    F32.round 16777217 = Flt.fin 16777216 ∧
    F32.round 16777219 = Flt.fin 16777220 ∧
    F32.round 100000001 = Flt.fin 100000000 ∧
    F32.round (2 ^ 128 - 2 ^ 103 - 1) = Flt.fin (2 ^ 128 - 2 ^ 104) ∧
    F32.round (2 ^ 128 - 2 ^ 103) = Flt.pinf ∧
    F32.round (-(2 ^ 128)) = Flt.ninf ∧
    F32.round (1 / 2 ^ 149) = Flt.fin (1 / 2 ^ 149) ∧
    F32.round (1 / 2 ^ 150) = Flt.fin 0 := by
  decide!

instance instLawfulScalarF32 : LawfulScalar F32 where
  eq_zero_zero := by decide!
  eq_one_zero := by decide!
  ge_of_lt := by
    intro a h
    have h0 : (Scalar.lit 0 : F32) = ⟨Flt.fin 0⟩ := by decide!
    rw [h0] at h ⊢
    exact LawfulScalar.ge_of_lt (F := Flt) a.val h
  add_nan := by
    intro a b h
    obtain ⟨v⟩ := a
    cases v <;> simp_all [Scalar.eq, Scalar.add, Flt.eq, Flt.add, F32.of]

/-! ## The force sum in exact arithmetic -/

theorem force_sum_fold (l : List (c_force_t ℚ)) (s : vec3_t ℚ) :
    l.foldl (fun sum fc => vec3_add sum fc.force) s =
      ⟨s.x + (l.map (fun fc => fc.force.x)).sum, s.y + (l.map (fun fc => fc.force.y)).sum,
       s.z + (l.map (fun fc => fc.force.z)).sum⟩ := by
  induction l generalizing s with
  | nil => simp
  | cons fc l ih =>
    rw [List.foldl_cons, ih]
    simp only [vec3_add, Scalar.add, List.map_cons, List.sum_cons, vec3_t.mk.injEq]
    refine ⟨?_, ?_, ?_⟩ <;> ring

/-- In exact arithmetic the code computes the velocity that the
specification describes. -/
theorem claimed_velocity_exact (forces : List (List (c_force_t ℚ))) (vel : vec3_t ℚ) (dt : ℚ) :
    c_physics_handle_forces forces vel dt = claimed_velocity forces vel dt := by
  rw [handle_forces_sum]
  unfold claimed_velocity active_force_sum
  rw [force_sum_fold]
  simp [vec3_zero, Scalar.lit]


/-! ## Release of the mouse -/

/-- The visibility flags after a release that finds `ent` first in slot `k`:
the slots from `k` to 14 take the flag of the next slot, slot 15 keeps its
flag. -/
theorem release_found_visible (ent : entity_t) (reset : Int) (self : candle_t) (k : Nat)
    (hk : k < 16) (hfirst : ∀ j, j < k → self.mouse_owners j ≠ ent)
    (hown : self.mouse_owners k = ent) (i : Nat) :
    (candle_release_mouse self ent reset).mouse_visible i =
      if k ≤ i ∧ i < 15 then self.mouse_visible (i + 1) else self.mouse_visible i := by
  simp only [candle_release_mouse]
  rw [release_loop_found ent reset self k hk hfirst hown]
  simp only [release_shift]
  rw [(release_shift_spec (15 - k) k (release_effects reset self)).2.1 i,
    (release_effects_owners reset self).2]
  have : (k ≤ i ∧ i < k + (15 - k)) ↔ (k ≤ i ∧ i < 15) := by omega
  simp only [this]

/-- A release of an entity that owns no slot leaves the two arrays as they
were. -/
theorem release_absent_slots (ent : entity_t) (reset : Int) (self : candle_t)
    (hfirst : ∀ j, j < 16 → self.mouse_owners j ≠ ent) :
    (candle_release_mouse self ent reset).mouse_owners = self.mouse_owners ∧
    (candle_release_mouse self ent reset).mouse_visible = self.mouse_visible := by
  simp only [candle_release_mouse]
  rw [release_loop_absent ent reset self hfirst]
  exact ⟨rfl, rfl⟩


/-! ## Sequences of grabs and releases -/

/-- The function `candle_release_mouse` in terms of the first slot owned by
the entity. -/
theorem release_closed (self : candle_t) (ent : entity_t) (reset : Int) :
    candle_release_mouse self ent reset = release_at self reset (first_slot self ent) := by
  unfold candle_release_mouse release_at
  cases h : first_slot self ent with
  | none =>
    unfold first_slot at h
    rw [List.find?_range_eq_none] at h
    rw [release_loop_absent ent reset self (fun j hj => by simpa using h j hj)]
  | some k =>
    unfold first_slot at h
    rw [List.find?_range_eq_some] at h
    obtain ⟨h1, h2, h3⟩ := h
    rw [release_loop_found ent reset self k (List.mem_range.mp h2)
      (fun j hj => by simpa using h3 j hj) (by simpa using h1)]

set_option maxRecDepth 100000 in
/-- The state after `fill_and_drain`, from start-up with the null entity 0. -/
theorem fill_and_drain_eval :
    cursor_shown (mouse_run (candle_new 0) fill_and_drain).sdl = some 0 ∧
    relative_mode (mouse_run (candle_new 0) fill_and_drain).sdl = some true ∧
    (mouse_run (candle_new 0) fill_and_drain).mouse_owners 0 = 1 := by
  simp only [fill_and_drain, mouse_run, List.range', List.map, List.reverse, List.reverseAux,
    List.append, List.foldl, mouse_step, release_closed, HAppend.hAppend, Append.append]
  decide


/-- The slots after a grab. -/
theorem grab_slots (self : candle_t) (ent : entity_t) (visibility : Int) (i : Nat) :
    (candle_grab_mouse self ent visibility).mouse_owners i =
      (if i = 0 then ent else if i ≤ 15 then self.mouse_owners (i - 1)
        else self.mouse_owners i) ∧
    (candle_grab_mouse self ent visibility).mouse_visible i =
      (if i = 0 then visibility else if i ≤ 15 then self.mouse_visible (i - 1)
        else self.mouse_visible i) := by
  obtain ⟨h1, h2, _⟩ := grab_shift_spec 15 self
  simp only [candle_grab_mouse, array_set, h1 i, h2 i]
  by_cases h0 : i = 0
  · simp [h0]
  · by_cases h15 : i ≤ 15
    · have : 1 ≤ i ∧ i ≤ 15 := by omega
      simp [h0, h15, this]
    · have : ¬ (1 ≤ i ∧ i ≤ 15) := by omega
      simp [h0, h15, this]

/-- The calls that end a release apply the visibility flag of slot 0. -/
theorem release_applies_top (self : candle_t) (ent : entity_t) (reset : Int) :
    cursor_shown (candle_release_mouse self ent reset).sdl =
      some ((candle_release_mouse self ent reset).mouse_visible 0) ∧
    relative_mode (candle_release_mouse self ent reset).sdl =
      some (decide ((candle_release_mouse self ent reset).mouse_visible 0 = 0)) := by
  simp only [candle_release_mouse, cursor_shown, relative_mode, List.foldl_append,
    List.foldl_cons, List.foldl_nil, and_self]

theorem spec_release_split (s : List (entity_t × Int)) (ent : entity_t) :
    ((∀ e ∈ s, e.1 ≠ ent) ∧ spec_release s ent = s) ∨
    ∃ pre e post, s = pre ++ e :: post ∧ e.1 = ent ∧ (∀ x ∈ pre, x.1 ≠ ent) ∧
      spec_release s ent = pre ++ post := by
  induction s with
  | nil => left; exact ⟨fun e he => by simp at he, rfl⟩
  | cons a s ih =>
    by_cases ha : a.1 = ent
    · right
      refine ⟨[], a, s, rfl, ha, fun x hx => by simp at hx, ?_⟩
      simp [spec_release, ha]
    · rcases ih with ⟨h1, h2⟩ | ⟨pre, e, post, h1, h2, h3, h4⟩
      · left
        refine ⟨fun e he => ?_, ?_⟩
        · rcases List.mem_cons.mp he with rfl | he
          · exact ha
          · exact h1 e he
        · simp [spec_release, ha, h2]
      · right
        refine ⟨a :: pre, e, post, by rw [h1]; rfl, h2, fun x hx => ?_, ?_⟩
        · rcases List.mem_cons.mp hx with rfl | hx
          · exact ha
          · exact h3 x hx
        · simp [spec_release, ha, h4]

theorem tracks_new (entity_null : entity_t) : tracks entity_null (candle_new entity_null) [] := by
  refine ⟨by simp, fun i hi => by simp at hi, ?_, ?_⟩ <;> simp [candle_new, array_set]

theorem tracks_grab (entity_null : entity_t) (self : candle_t) (s : List (entity_t × Int))
    (ent : entity_t) (visibility : Int) (h : tracks entity_null self s) (hlen : s.length < 15) :
    tracks entity_null (candle_grab_mouse self ent visibility) (spec_grab s ent visibility) := by
  obtain ⟨_, h2, h3, h4⟩ := h
  have hs : spec_grab s ent visibility = (ent, visibility) :: s := by
    unfold spec_grab
    exact List.take_of_length_le (by simp only [List.length_cons]; omega)
  rw [hs]
  refine ⟨by simp only [List.length_cons]; omega, fun i hi => ?_, ?_, ?_⟩
  · simp only [List.length_cons] at hi
    rw [(grab_slots self ent visibility i).1, (grab_slots self ent visibility i).2]
    cases i with
    | zero => simp
    | succ j =>
      have hj : j + 1 ≤ 15 := by omega
      simp only [List.getElem?_cons_succ, Nat.add_one_ne_zero, if_false, hj, if_true,
        Nat.add_sub_cancel]
      exact h2 j (by omega)
  · rw [(grab_slots self ent visibility _).1]
    have hj : s.length + 1 ≤ 15 := by omega
    simp only [List.length_cons, Nat.add_one_ne_zero, if_false, hj, if_true, Nat.add_sub_cancel]
    exact h3
  · rw [(grab_slots self ent visibility _).2]
    have hj : s.length + 1 ≤ 15 := by omega
    simp only [List.length_cons, Nat.add_one_ne_zero, if_false, hj, if_true, Nat.add_sub_cancel]
    exact h4

/-- The slots after a release, in terms of the first slot owned by the
entity. -/
theorem release_slots (self : candle_t) (ent : entity_t) (reset : Int) (i : Nat) :
    (candle_release_mouse self ent reset).mouse_owners i =
      (match first_slot self ent with
      | some k => if k ≤ i ∧ i < 15 then self.mouse_owners (i + 1) else self.mouse_owners i
      | none => self.mouse_owners i) ∧
    (candle_release_mouse self ent reset).mouse_visible i =
      (match first_slot self ent with
      | some k => if k ≤ i ∧ i < 15 then self.mouse_visible (i + 1) else self.mouse_visible i
      | none => self.mouse_visible i) := by
  cases h : first_slot self ent with
  | none =>
    unfold first_slot at h
    rw [List.find?_range_eq_none] at h
    have := release_absent_slots ent reset self (fun j hj => by simpa using h j hj)
    simp only [this.1, this.2, and_self]
  | some k =>
    unfold first_slot at h
    rw [List.find?_range_eq_some] at h
    obtain ⟨h1, h2, h3⟩ := h
    exact ⟨release_found_owners ent reset self k (List.mem_range.mp h2)
        (fun j hj => by simpa using h3 j hj) (by simpa using h1) i,
      release_found_visible ent reset self k (List.mem_range.mp h2)
        (fun j hj => by simpa using h3 j hj) (by simpa using h1) i⟩

theorem first_slot_spec (self : candle_t) (ent : entity_t) (k : Nat)
    (h : first_slot self ent = some k) :
    k < 16 ∧ self.mouse_owners k = ent ∧ ∀ j, j < k → self.mouse_owners j ≠ ent := by
  unfold first_slot at h
  rw [List.find?_range_eq_some] at h
  obtain ⟨h1, h2, h3⟩ := h
  exact ⟨List.mem_range.mp h2, by simpa using h1, fun j hj => by simpa using h3 j hj⟩

theorem first_slot_none (self : candle_t) (ent : entity_t) (h : first_slot self ent = none) :
    ∀ j, j < 16 → self.mouse_owners j ≠ ent := by
  unfold first_slot at h
  rw [List.find?_range_eq_none] at h
  exact fun j hj => by simpa using h j hj

theorem tracks_release (entity_null : entity_t) (self : candle_t) (s : List (entity_t × Int))
    (ent : entity_t) (reset : Int) (h : tracks entity_null self s) (hent : ent ≠ entity_null) :
    tracks entity_null (candle_release_mouse self ent reset) (spec_release s ent) := by
  obtain ⟨hl, h2, h3, h4⟩ := h
  rcases spec_release_split s ent with ⟨habs, hsame⟩ | ⟨pre, e, post, hs, he, hpre, hrel⟩
  · -- no entry of the stack is owned by `ent`: a match, if any, lies past the sentinel
    rw [hsame]
    have hlow : ∀ i, i ≤ s.length →
        (candle_release_mouse self ent reset).mouse_owners i = self.mouse_owners i ∧
        (candle_release_mouse self ent reset).mouse_visible i = self.mouse_visible i := by
      intro i hi
      have hsl := release_slots self ent reset i
      cases hf : first_slot self ent with
      | none => rw [hf] at hsl; exact hsl
      | some k =>
        rw [hf] at hsl
        obtain ⟨hk, hown, hfirst⟩ := first_slot_spec self ent k hf
        have hki : i < k := by
          by_contra hcon
          have hk2 : k ≤ s.length := by omega
          rcases Nat.lt_or_eq_of_le hk2 with hlt | heq
          · have := h2 k hlt
            have hmem : (self.mouse_owners k, self.mouse_visible k) ∈ s :=
              List.getElem?_mem this
            exact habs _ hmem hown
          · rw [heq] at hown
            exact hent (hown.symm.trans h3)
        have hno : ¬ (k ≤ i ∧ i < 15) := by omega
        simp only [hno, if_false] at hsl
        exact hsl
    refine ⟨hl, fun i hi => ?_, ?_, ?_⟩
    · rw [(hlow i (by omega)).1, (hlow i (by omega)).2]
      exact h2 i hi
    · rw [(hlow _ (Nat.le_refl _)).1]; exact h3
    · rw [(hlow _ (Nat.le_refl _)).2]; exact h4
  · -- the first entry owned by `ent` is at depth `pre.length`
    rw [hrel]
    have hlen : s.length = pre.length + post.length + 1 := by
      rw [hs]; simp only [List.length_append, List.length_cons]; omega
    have hk : first_slot self ent = some pre.length := by
      unfold first_slot
      rw [List.find?_range_eq_some]
      refine ⟨?_, List.mem_range.mpr (by omega), fun j hj => ?_⟩
      · have := h2 pre.length (by omega)
        rw [hs, List.getElem?_append_right (Nat.le_refl _), Nat.sub_self] at this
        simp only [List.getElem?_cons_zero, Option.some.injEq] at this
        simp only [decide_eq_true_eq]
        rw [← he, this]
      · have := h2 j (by omega)
        rw [hs, List.getElem?_append_left hj] at this
        have hmem : (self.mouse_owners j, self.mouse_visible j) ∈ pre := List.getElem?_mem this
        have := hpre _ hmem
        simpa using this
    have hslots : ∀ i, (candle_release_mouse self ent reset).mouse_owners i =
          (if pre.length ≤ i ∧ i < 15 then self.mouse_owners (i + 1) else self.mouse_owners i) ∧
        (candle_release_mouse self ent reset).mouse_visible i =
          (if pre.length ≤ i ∧ i < 15 then self.mouse_visible (i + 1)
            else self.mouse_visible i) := by
      intro i
      have := release_slots self ent reset i
      rw [hk] at this
      exact this
    have hnew : (pre ++ post).length = pre.length + post.length := by
      simp only [List.length_append]
    refine ⟨by omega, fun i hi => ?_, ?_, ?_⟩
    · rw [hnew] at hi
      rw [(hslots i).1, (hslots i).2]
      by_cases hip : i < pre.length
      · have hno : ¬ (pre.length ≤ i ∧ i < 15) := by omega
        simp only [hno, if_false]
        have := h2 i (by omega)
        rw [hs, List.getElem?_append_left hip] at this
        rw [List.getElem?_append_left hip]
        exact this
      · have hyes : pre.length ≤ i ∧ i < 15 := by omega
        simp only [hyes, and_self, if_true]
        have := h2 (i + 1) (by omega)
        rw [hs, List.getElem?_append_right (by omega)] at this
        have hidx : i + 1 - pre.length = (i - pre.length) + 1 := by omega
        rw [hidx, List.getElem?_cons_succ] at this
        rw [List.getElem?_append_right (by omega)]
        exact this
    · rw [hnew, (hslots _).1]
      have hyes : pre.length ≤ pre.length + post.length ∧ pre.length + post.length < 15 := by
        omega
      simp only [hyes, and_self, if_true]
      rw [← hlen]; exact h3
    · rw [hnew, (hslots _).2]
      have hyes : pre.length ≤ pre.length + post.length ∧ pre.length + post.length < 15 := by
        omega
      simp only [hyes, and_self, if_true]
      rw [← hlen]; exact h4

/-- When the slots hold the stack of the specification, the flag of slot 0 is
the visibility that the specification asks for. -/
theorem tracks_visibility (entity_null : entity_t) (self : candle_t)
    (s : List (entity_t × Int)) (h : tracks entity_null self s) :
    self.mouse_visible 0 = spec_visibility s := by
  obtain ⟨_, h2, _, h4⟩ := h
  cases s with
  | nil => exact h4
  | cons e s =>
    have := h2 0 (by simp)
    simp only [List.getElem?_cons_zero, Option.some.injEq] at this
    rw [this]
    rfl


theorem holds_at_most_init (n : Nat) (calls : List mouse_call) (c : mouse_call)
    (h : holds_at_most n (calls ++ [c])) : holds_at_most n calls := by
  intro k hk
  have := h k (by simp only [List.length_append, List.length_singleton]; omega)
  rw [List.take_append_of_le_length hk] at this
  exact this

theorem holds_at_most_last (n : Nat) (calls : List mouse_call)
    (h : holds_at_most n calls) : (spec_run calls).length ≤ n := by
  have := h calls.length (Nat.le_refl _)
  rw [List.take_length] at this
  exact this

/-- From start-up, while the stack of the specification holds at most 15
entries and the null entity is never released, the slots hold the stack of
the specification followed by the entry written by `candle_new`. -/
theorem run_tracks (entity_null : entity_t) (calls : List mouse_call)
    (hcap : holds_at_most 15 calls) (hnull : spares_null entity_null calls) :
    tracks entity_null (mouse_run (candle_new entity_null) calls) (spec_run calls) := by
  induction calls using List.reverseRecOn with
  | nil => exact tracks_new entity_null
  | append_singleton calls c ih =>
    have hprev := ih (holds_at_most_init 15 calls c hcap)
      (fun reset hmem => hnull reset (List.mem_append_left _ hmem))
    have hlast := holds_at_most_last 15 _ hcap
    simp only [mouse_run, spec_run, List.foldl_append, List.foldl_cons, List.foldl_nil]
      at hlast ⊢
    cases c with
    | grab ent visibility =>
      refine tracks_grab entity_null _ _ ent visibility hprev ?_
      have h15 := hprev.1
      simp only [spec_step, spec_grab, List.length_take, List.length_cons] at hlast
      change (List.foldl spec_step [] calls).length ≤ 15 at h15
      omega
    | release ent reset =>
      refine tracks_release entity_null _ _ ent reset hprev ?_
      intro heq
      exact hnull reset (by rw [heq]; simp)

/-- The visibility applied by a release is the one that the specification
asks for, in every sequence of calls from start-up that holds at most 15
entries at a time and never releases the null entity. -/
theorem release_visibility_below_capacity (entity_null : entity_t) (calls : List mouse_call)
    (ent : entity_t) (reset : Int)
    (hcap : holds_at_most 15 (calls ++ [mouse_call.release ent reset]))
    (hnull : spares_null entity_null (calls ++ [mouse_call.release ent reset])) :
    cursor_shown (mouse_run (candle_new entity_null)
        (calls ++ [mouse_call.release ent reset])).sdl =
      some (spec_visibility (spec_run (calls ++ [mouse_call.release ent reset]))) ∧
    relative_mode (mouse_run (candle_new entity_null)
        (calls ++ [mouse_call.release ent reset])).sdl =
      some (decide (spec_visibility (spec_run (calls ++ [mouse_call.release ent reset])) = 0)) := by
  have ht := tracks_visibility entity_null _ _ (run_tracks entity_null _ hcap hnull)
  rw [← ht]
  simp only [mouse_run, List.foldl_append, List.foldl_cons, List.foldl_nil, mouse_step]
  exact release_applies_top _ ent reset

theorem mouse_run_append (self : candle_t) (a b : List mouse_call) :
    mouse_run self (a ++ b) = mouse_run (mouse_run self a) b := by
  simp only [mouse_run, List.foldl_append]

/-- Grabs with the cursor hidden fill the slots with the flag 0 from the
top. -/
theorem grabs_hide (l : List entity_t) (self : candle_t) (n : Nat)
    (h : ∀ i, i < n → i < 16 → self.mouse_visible i = 0) :
    ∀ i, i < n + l.length → i < 16 →
      (mouse_run self (l.map (fun e => mouse_call.grab e 0))).mouse_visible i = 0 := by
  induction l generalizing self n with
  | nil => exact fun i hi h16 => h i (by simpa using hi) h16
  | cons e l ih =>
    intro i hi h16
    simp only [List.map_cons, mouse_run, List.foldl_cons, mouse_step]
    refine ih (candle_grab_mouse self e 0) (n + 1) (fun j hj hj16 => ?_) i
      (by simp only [List.length_cons] at hi; omega) h16
    rw [(grab_slots self e 0 j).2]
    by_cases h0 : j = 0
    · simp [h0]
    · have h15 : j ≤ 15 := by omega
      simp only [h0, if_false, h15, if_true]
      exact h (j - 1) (by omega) (by omega)

/-- Releases keep the flag 0 in the 16 slots. -/
theorem releases_hide (l : List mouse_call) (self : candle_t)
    (hl : ∀ c ∈ l, ∃ ent reset, c = mouse_call.release ent reset)
    (h : ∀ i, i < 16 → self.mouse_visible i = 0) :
    ∀ i, i < 16 → (mouse_run self l).mouse_visible i = 0 := by
  induction l generalizing self with
  | nil => exact h
  | cons c l ih =>
    obtain ⟨ent, reset, rfl⟩ := hl c (List.mem_cons_self _ _)
    simp only [mouse_run, List.foldl_cons, mouse_step]
    refine ih (candle_release_mouse self ent reset)
      (fun c hc => hl c (List.mem_cons_of_mem _ hc)) (fun j hj => ?_)
    rw [(release_slots self ent reset j).2]
    split
    · split
      · next hk => exact h (j + 1) (by omega)
      · exact h j hj
    · exact h j hj

/-- After `fill_and_drain` the last release applies the visibility 0,
whatever the state before and so whatever the value of `entity_null`. -/
theorem fill_and_drain_hidden (self : candle_t) :
    cursor_shown (mouse_run self fill_and_drain).sdl = some 0 ∧
    relative_mode (mouse_run self fill_and_drain).sdl = some true := by
  have hsplit : fill_and_drain =
      (List.range' 1 16).map (fun e => mouse_call.grab e 0) ++
        ((List.range' 2 15).reverse.map (fun e => mouse_call.release e 0) ++
          [mouse_call.release 1 0]) := by decide
  have hfull := grabs_hide (List.range' 1 16) self 0 (fun i hi => absurd hi (by omega))
  have hkeep := releases_hide ((List.range' 2 15).reverse.map (fun e => mouse_call.release e 0))
    (mouse_run self ((List.range' 1 16).map (fun e => mouse_call.grab e 0)))
    (fun c hc => by
      obtain ⟨e, _, rfl⟩ := List.mem_map.mp hc
      exact ⟨e, 0, rfl⟩)
    (fun i hi => hfull i (by simp only [List.length_range']; omega) hi)
  rw [hsplit, mouse_run_append, mouse_run_append]
  generalize mouse_run (mouse_run self ((List.range' 1 16).map (fun e => mouse_call.grab e 0)))
    ((List.range' 2 15).reverse.map (fun e => mouse_call.release e 0)) = st at hkeep ⊢
  simp only [mouse_run, List.foldl_cons, List.foldl_nil, mouse_step]
  have htop := release_applies_top st 1 0
  have hz : (candle_release_mouse st 1 0).mouse_visible 0 = 0 := by
    rw [(release_slots st 1 0 0).2]
    split
    · split
      · exact hkeep 1 (by omega)
      · exact hkeep 0 (by omega)
    · exact hkeep 0 (by omega)
  rw [hz] at htop
  exact htop


/-! ## Input events -/

/-- The emission of `event_handle`: one call, to the top owner when there is
one. -/
theorem event_handle_call_signals (entity_null : entity_t) (bus : listeners_t)
    (self : candle_input_t) (event : SDL_Event) :
    (event_handle_call entity_null bus self event).1.signals =
      [if top_owner self ≠ entity_null then
        ⟨true, top_owner self, signal_t.event_handle, signal_data.event event⟩
      else ⟨false, entity_null, signal_t.event_handle, signal_data.event event⟩] ∧
    (event_handle_call entity_null bus self event).1.resizes = [] := by
  unfold event_handle_call top_owner
  split <;> exact ⟨rfl, rfl⟩

/-- The calls that the `switch` of `handle_event` adds, for each event. -/
theorem event_switch_calls (entity_null : entity_t) (bus : listeners_t) (r : event_run)
    (event : SDL_Event) :
    (event_switch entity_null bus r event).signals = r.signals ++
      (match event with
      | SDL_Event.MouseWheel x y direction =>
        [⟨false, entity_null, signal_t.mouse_wheel,
          signal_data.mouse_button_data x y direction SDL_BUTTON_MIDDLE⟩]
      | SDL_Event.MouseButtonUp x y button =>
        [if top_owner r.self ≠ entity_null then
          ⟨false, top_owner r.self, signal_t.mouse_release,
            signal_data.mouse_button_data x y 0 button⟩
        else ⟨false, entity_null, signal_t.mouse_release,
            signal_data.mouse_button_data x y 0 button⟩]
      | SDL_Event.MouseButtonDown x y button =>
        [⟨false, entity_null, signal_t.mouse_press, signal_data.mouse_button_data x y 0 button⟩]
      | SDL_Event.MouseMotion x y xrel yrel =>
        [if top_owner r.self ≠ entity_null then
          ⟨true, top_owner r.self, signal_t.mouse_move,
            signal_data.mouse_move_data xrel yrel x y⟩
        else ⟨false, entity_null, signal_t.mouse_move,
            signal_data.mouse_move_data xrel yrel x y⟩]
      | SDL_Event.KeyUp sym =>
        [⟨false, entity_null, signal_t.key_up, signal_data.key (to_char sym)⟩]
      | SDL_Event.KeyDown sym =>
        [⟨false, entity_null, signal_t.key_down, signal_data.key (to_char sym)⟩]
      | SDL_Event.WindowEvent _ => []
      | SDL_Event.Other => []) ∧
    (event_switch entity_null bus r event).resizes = r.resizes ++
      (if event = SDL_Event.WindowEvent SDL_WINDOWEVENT_RESIZED then [event] else []) := by
  cases event with
  | MouseWheel x y direction => simp [event_switch, entity_signal]
  | MouseButtonUp x y button =>
    simp only [event_switch, top_owner]
    split <;> simp [entity_signal]
  | MouseButtonDown x y button => simp [event_switch, entity_signal]
  | MouseMotion x y xrel yrel =>
    simp only [event_switch, top_owner]
    split <;> simp [entity_signal]
  | KeyUp sym =>
    simp only [event_switch]
    split <;> simp [entity_signal]
  | KeyDown sym =>
    simp only [event_switch]
    split <;> simp [entity_signal]
  | WindowEvent kind =>
    simp only [event_switch]
    split
    · next h => subst h; simp
    · next h => simp [h]
  | Other => simp [event_switch]


/-! ## The collision phase is defined when the moving body has a velocity -/

theorem integrate_all_present {F : Type} [Scalar F] (w : World F) (dt : F) (e : entity_t) :
    (c_velocity (integrate_all w dt) e).isSome = (c_velocity w.vels e).isSome := by
  have hflat : (integrate_all w dt).flatten = w.vels.flatten.map (integrate w dt) := by
    unfold integrate_all
    rw [List.map_flatten]
  unfold c_velocity
  rw [hflat, List.find?_map]
  have : ((fun u : c_velocity_t F => decide (u.entity = e)) ∘ integrate w dt) =
      (fun u => decide (u.entity = e)) := by
    funext u; rfl
  rw [this]
  cases List.find? (fun u => decide (u.entity = e)) w.vels.flatten <;> rfl

/-- The collision phase dereferences no null pointer in a world where the
moving body of every probed pair has a velocity component. -/
theorem collide_all_defined {F : Type} [Scalar F] (w : World F)
    (vels : List (List (c_velocity_t F))) (hsafe : moving_has_velocity w)
    (hpres : ∀ e, (c_velocity vels e).isSome = (c_velocity w.vels e).isSome) :
    ∃ vels2, collide_all w vels = some vels2 ∧
      ∀ e, (c_velocity vels2 e).isSome = (c_velocity w.vels e).isSome := by
  unfold collide_all
  rw [pair_loops_eq]
  refine foldlM_invariant
    (fun s => ∀ e, (c_velocity s e).isSome = (c_velocity w.vels e).isSome) _ _ vels hpres ?_
  intro s a ha hs
  rw [mem_all_slots] at ha
  obtain ⟨c1, hc1, hmem1⟩ := ct_get_at_of_slot w.bodies a ha
  simp only [hc1, Option.some_bind]
  refine foldlM_invariant
    (fun s => ∀ e, (c_velocity s e).isSome = (c_velocity w.vels e).isSome) _ _ s hs ?_
  intro s2 b hb hs2
  rw [mem_later_slots w.bodies a b ha] at hb
  obtain ⟨c2, hc2, hmem2⟩ := ct_get_at_of_slot w.bodies b hb.1
  simp only [hc2]
  split
  · exact ⟨s2, rfl, hs2⟩
  · next hcond =>
    have hv : (c_velocity w.vels c1.entity).isSome = true ∨
        (c_velocity w.vels c2.entity).isSome = true := by
      rw [← hs c1.entity, ← hs2 c2.entity]
      cases h1 : (c_velocity s c1.entity).isSome <;>
        cases h2 : (c_velocity s2 c2.entity).isSome <;> simp_all
    obtain ⟨s3, hs3⟩ := handle_collisions_some w c1 c2 s2 (fun c d cb hsel => by
      rw [hs2 d.entity]
      exact hsafe c1 hmem1 c2 hmem2 c d cb hsel hv)
    refine ⟨s3, hs3, ?_⟩
    intro e
    rw [handle_collisions_present w c1 c2 s2 s3 hs3 e]
    exact hs2 e

/-- A tick is defined in a world where the moving body of every probed pair
has a velocity component. -/
theorem physics_update_defined {F : Type} [Scalar F] (w : World F) (dt : F)
    (hsafe : moving_has_velocity w) : (c_physics_update w dt).isSome = true := by
  obtain ⟨vels2, h2, _⟩ := collide_all_defined w (integrate_all w dt) hsafe
    (integrate_all_present w dt)
  simp only [c_physics_update, h2, Option.isSome_some]

/-! ## The claims -/

/-- C1 at a failing input: an entity at rest at the position `(0, +∞, 0)`,
no force, no rigid body, `dt = 1`.  The tick leaves the position as it was,
and leaves the normal `(0, NaN, 0)`, which is not the zero vector. -/
theorem idempotence_nan_normal :
    (c_physics_update lofty_world (Flt.fin 1)).map
      (fun w => (w.pos 1, (c_velocity w.vels 1).map (fun v => v.normal))) =
    some (⟨Flt.fin 0, Flt.pinf, Flt.fin 0⟩, some ⟨Flt.fin 0, Flt.nan, Flt.fin 0⟩) := by
  with_unfolding_all decide

/-- C2, axis masking.  In every velocity storage on which `c_physics_update`
calls `c_physics_handle_collisions`, for a probed collider and a moving body
`d` without a node: if at each of the 8 probe offsets the probe reports
penetration (`>= 0`) at the new point and none (`< 0`) at the point with the
new `x`, `z` and the old `y`, then the call succeeds, `computed_pos` keeps its
`x` and `z`, its `y` is `pre_movement_pos.y`, and the `y` of the velocity is
zero. -/
theorem axis_masking_height {F : Type} [Scalar F] [LawfulScalar F] (w : World F) (dt : F)
    (c1 c2 c d : c_rigid_body_t F) (cb : vec3_t F → F)
    (vels : List (List (c_velocity_t F))) (vc : c_velocity_t F)
    (hreach : Reached w dt vels)
    (hsel : select_probe c1 c2 = some (c, d, cb))
    (hvc : c_velocity vels d.entity = some vc)
    (hnode : w.node d.entity = none)
    (hprobe : ∀ o ∈ probe_offsets d.offset,
      Scalar.ge (cb (vec3_add o vc.computed_pos)) (Scalar.lit 0) = true ∧
      Scalar.lt (cb (vec3 (vec3_add o vc.computed_pos).x (vec3_add o vc.pre_movement_pos).y
        (vec3_add o vc.computed_pos).z)) (Scalar.lit 0) = true) :
    ∃ vels2 vc2, c_physics_handle_collisions w c1 c2 vels = some vels2 ∧
      c_velocity vels2 d.entity = some vc2 ∧
      vc2.computed_pos.x = vc.computed_pos.x ∧
      vc2.computed_pos.z = vc.computed_pos.z ∧
      vc2.computed_pos.y = vc.pre_movement_pos.y ∧
      vc2.pre_movement_pos = vc.pre_movement_pos ∧
      vc2.velocity.y = Scalar.lit 0 := by
  have hne : probe_offsets d.offset ≠ [] := by simp [probe_offsets]
  have hloop := probe_loop_hold_y cb (probe_offsets d.offset) vc.computed_pos
    vc.pre_movement_pos hne hprobe
  have hnum : Scalar.eq vc.pre_movement_pos.y vc.pre_movement_pos.y = true := by
    by_contra hcon
    have hfalse : Scalar.eq vc.pre_movement_pos.y vc.pre_movement_pos.y = false := by
      simpa using hcon
    have ht := reached_tracked w dt vels hreach vc (c_velocity_mem vels _ vc hvc) hfalse
    obtain ⟨hge, hlt⟩ := hprobe (vec3 (Scalar.lit (1 / 5)) (Scalar.lit 0) (Scalar.lit (1 / 5)))
      (by simp [probe_offsets])
    have hpt : vec3 (vec3_add (vec3 (Scalar.lit (1 / 5)) (Scalar.lit 0) (Scalar.lit (1 / 5)))
          vc.computed_pos).x
        (vec3_add (vec3 (Scalar.lit (1 / 5)) (Scalar.lit 0) (Scalar.lit (1 / 5)))
          vc.pre_movement_pos).y
        (vec3_add (vec3 (Scalar.lit (1 / 5)) (Scalar.lit 0) (Scalar.lit (1 / 5)))
          vc.computed_pos).z =
        vec3_add (vec3 (Scalar.lit (1 / 5)) (Scalar.lit 0) (Scalar.lit (1 / 5)))
          vc.computed_pos := by
      simp only [vec3, vec3_add, ht]
    rw [hpt] at hlt
    rw [LawfulScalar.ge_of_lt _ hlt] at hge
    exact Bool.false_ne_true hge
  have hcall : c_physics_handle_collisions w c1 c2 vels =
      some (vel_store d.entity
        { vc with
          computed_pos := (probe_loop none cb (probe_offsets d.offset) vc.computed_pos
            vc.pre_movement_pos).2,
          velocity := stop_axes (probe_loop none cb (probe_offsets d.offset) vc.computed_pos
            vc.pre_movement_pos).2 vc.pre_movement_pos vc.velocity } vels) := by
    simp only [c_physics_handle_collisions, probe_branch, hsel, hvc, hnode]
  refine ⟨_, _, hcall,
    c_velocity_store_self vels d.entity vc _ (c_velocity_entity vels _ vc hvc) hvc,
    ?_, ?_, ?_, rfl, ?_⟩
  · simp only [hloop]
  · simp only [hloop]
  · simp only [hloop]
  · simp only [hloop]
    exact stop_axes_y _ _ _ hnum

/-- C2 at the ball that falls onto the floor: right after integration the
ball is at height 0, below the floor surface at one half; the collision call
puts it back at height 1 and stops its fall. -/
theorem axis_masking_height_witness :
    ∃ vels2 vc2,
      c_physics_handle_collisions floor_world floor_body ball_body
        (integrate_all floor_world 1) = some vels2 ∧
      c_velocity vels2 ball_body.entity = some vc2 ∧
      vc2.computed_pos.x = (integrate floor_world 1 falling).computed_pos.x ∧
      vc2.computed_pos.z = (integrate floor_world 1 falling).computed_pos.z ∧
      vc2.computed_pos.y = (integrate floor_world 1 falling).pre_movement_pos.y ∧
      vc2.pre_movement_pos = (integrate floor_world 1 falling).pre_movement_pos ∧
      vc2.velocity.y = Scalar.lit 0 :=
  axis_masking_height floor_world 1 floor_body ball_body floor_body ball_body floor_probe
    (integrate_all floor_world 1) (integrate floor_world 1 falling)
    Reached.start rfl rfl rfl
    (by
      intro o ho
      simp only [probe_offsets, ball_body, List.mem_cons, List.mem_singleton,
        List.not_mem_nil, or_false] at ho
      rcases ho with h | h | h | h | h | h | h | h <;> subst h <;>
        simp [floor_probe, integrate, floor_world, falling, c_physics_handle_forces,
          vec3, vec3_add, vec3_scale, Scalar.ge, Scalar.lt, Scalar.add, Scalar.mul,
          Scalar.lit, Scalar.neg] <;> norm_num)

/-- C3, dynamic-dynamic stop.  For two rigid bodies without probe callback
that both carry a velocity component: when `c_rigid_body_intersects` reports
an intersection, `c_physics_handle_collisions` leaves both with a zero
velocity and with `computed_pos` equal to their own `pre_movement_pos` (the
other fields as they were); when it reports none, the velocity storage is
unchanged. -/
theorem dynamic_dynamic_stop {F : Type} [Scalar F] (w : World F) (c1 c2 : c_rigid_body_t F)
    (vels : List (List (c_velocity_t F))) (v1 v2 : c_velocity_t F)
    (hp1 : c1.costum = none) (hp2 : c2.costum = none)
    (hv1 : c_velocity vels c1.entity = some v1) (hv2 : c_velocity vels c2.entity = some v2) :
    (w.intersects vels c1 c2 = true →
      ∃ vels2, c_physics_handle_collisions w c1 c2 vels = some vels2 ∧
        c_velocity vels2 c1.entity =
          some { v1 with velocity := vec3_zero, computed_pos := v1.pre_movement_pos } ∧
        c_velocity vels2 c2.entity =
          some { v2 with velocity := vec3_zero, computed_pos := v2.pre_movement_pos }) ∧
    (w.intersects vels c1 c2 = false → c_physics_handle_collisions w c1 c2 vels = some vels) := by
  have hsel : select_probe c1 c2 = none := by simp [select_probe, hp1, hp2]
  constructor
  · intro hi
    refine ⟨full_stop c2.entity (full_stop c1.entity vels), ?_, ?_, ?_⟩
    · simp [c_physics_handle_collisions, coarse_branch, hsel, hi]
    · by_cases hne : c1.entity = c2.entity
      · have hv12 : v1 = v2 := by rw [hne, hv2] at hv1; exact (Option.some.inj hv1).symm
        subst hv12
        rw [hne]
        have h1 := full_stop_self vels c2.entity v1 hv2
        exact full_stop_self _ c2.entity (stopped v1) h1
      · rw [full_stop_other _ _ _ hne]
        exact full_stop_self vels c1.entity v1 hv1
    · by_cases hne : c1.entity = c2.entity
      · have hv12 : v1 = v2 := by rw [hne, hv2] at hv1; exact (Option.some.inj hv1).symm
        subst hv12
        rw [hne]
        have h1 := full_stop_self vels c2.entity v1 hv2
        exact full_stop_self _ c2.entity (stopped v1) h1
      · have h2 : c_velocity (full_stop c1.entity vels) c2.entity = some v2 := by
          rw [full_stop_other _ _ _ (fun h => hne h.symm)]; exact hv2
        exact full_stop_self _ c2.entity v2 h2
  · intro hi
    simp [c_physics_handle_collisions, coarse_branch, hsel, hi]

/-- C3 at the ball and the crate of `crash_world`, which intersect: both end
with a zero velocity, back at their `pre_movement_pos`. -/
theorem dynamic_dynamic_stop_witness :
    ∃ vels2, c_physics_handle_collisions crash_world ball_body crate_body
        crash_world.vels = some vels2 ∧
      c_velocity vels2 ball_body.entity =
        some { falling with velocity := vec3_zero, computed_pos := falling.pre_movement_pos } ∧
      c_velocity vels2 crate_body.entity =
        some { sliding with velocity := vec3_zero, computed_pos := sliding.pre_movement_pos } :=
  (dynamic_dynamic_stop crash_world ball_body crate_body crash_world.vels falling sliding
    rfl rfl rfl rfl).1 rfl

/-- C4, pair enumeration.  For every layout of the paged storage (any number
of pages of any sizes, empty pages included), the loop nest of the collision
phase of `c_physics_update` (`pair_loops`, run by `collide_all`) completes and
reaches each pair of slots `(a, b)` with `a` strictly before `b` in
page-then-slot order exactly once, and no other pair: never a slot with
itself, never a pair in both orders. -/
theorem pair_enumeration {α : Type} (pages : List (List α)) :
    ∃ L, visited_pairs pages = some L ∧ L.Nodup ∧
      ∀ a b, (a, b) ∈ L ↔ is_slot pages a ∧ is_slot pages b ∧ slot_before a b := by
  refine ⟨_, visited_pairs_eq pages, nodup_pairs pages, ?_⟩
  intro a b
  simp only [List.mem_flatMap, List.mem_map, Prod.mk.injEq]
  constructor
  · rintro ⟨a2, ha, b2, hb, rfl, rfl⟩
    rw [mem_all_slots] at ha
    rw [mem_later_slots pages _ _ ha] at hb
    exact ⟨ha, hb⟩
  · rintro ⟨ha, hb, hab⟩
    exact ⟨a, (mem_all_slots pages a).mpr ha, b,
      (mem_later_slots pages a b ha).mpr ⟨hb, hab⟩, rfl, rfl⟩

/-- C5 as stated fails: with a probe that is clear on the hold-XY point
`(0, 0, 1)` and on the hold-XZ point `(0, 1, 0)` and penetrating on the four
points tested before them, `handle_dirs` masks `x` and `y` (hold XY comes
first in the code), while the order of the claim selects hold XZ and masks
`x` and `z`. -/
theorem handle_dirs_claimed_order_fails :
    handle_dirs edge_probe ⟨0, 0, 0⟩ ⟨1, 1, 1⟩ = vec3 0 0 1 ∧
    hold_mask (selected_hold claimed_order edge_probe ⟨0, 0, 0⟩ ⟨1, 1, 1⟩) =
      (vec3 0 1 0 : vec3_t ℚ) ∧
    handle_dirs edge_probe ⟨0, 0, 0⟩ ⟨1, 1, 1⟩ ≠
      hold_mask (selected_hold claimed_order edge_probe ⟨0, 0, 0⟩ ⟨1, 1, 1⟩) := by
  have h1 : handle_dirs edge_probe ⟨0, 0, 0⟩ ⟨1, 1, 1⟩ = vec3 0 0 1 := by
    simp [handle_dirs, edge_probe, vec3, Scalar.lt, Scalar.lit]
  have h2 : hold_mask (selected_hold claimed_order edge_probe ⟨0, 0, 0⟩ ⟨1, 1, 1⟩) =
      (vec3 0 1 0 : vec3_t ℚ) := by
    simp [selected_hold, first_clear, claimed_order, hold_mask, hold_point, edge_probe, vec3,
      Scalar.lt, Scalar.lit]
  refine ⟨h1, h2, ?_⟩
  rw [h1, h2]
  simp [vec3]

/-- C5, amended.  `handle_dirs` tests the hold combinations in the order
hold Y, hold X, hold Z, hold YZ, hold XY, hold XZ, selects the first whose
probe point is not penetrating (`< 0`), all three axes when there is none,
and its result is `0` exactly on the axes held in the selected combination;
when the probe reports penetration at the new point,
`handle_cols_for_offset` puts `*new_pos` back at the old coordinate on
exactly those axes. -/
theorem handle_dirs_precedence {F : Type} [Scalar F] [LawfulScalar F] (cb : vec3_t F → F)
    (old_pos new_pos : vec3_t F) :
    handle_dirs cb old_pos new_pos = hold_mask (selected_hold code_order cb old_pos new_pos) ∧
    ∀ (node : Option (vec3_t F → vec3_t F)) (o np op : vec3_t F),
      Scalar.ge (cb (vec3_add (node_offset node o) np)) (Scalar.lit 0) = true →
      (handle_cols_for_offset node cb o np op).2 =
        hold_point (selected_hold code_order cb (vec3_add (node_offset node o) op)
          (vec3_add (node_offset node o) np)) op np :=
  ⟨handle_dirs_code_order cb old_pos new_pos,
    fun node o np op hge => handle_cols_reverts node cb o np op hge⟩

/-- C5, amended, at `edge_probe` between the origin and `(1, 1, 1)`: the new
point penetrates, and the selected combination is hold XY. -/
theorem handle_dirs_precedence_witness :
    handle_dirs edge_probe ⟨0, 0, 0⟩ ⟨1, 1, 1⟩ =
      hold_mask (selected_hold code_order edge_probe ⟨0, 0, 0⟩ ⟨1, 1, 1⟩) ∧
    (handle_cols_for_offset none edge_probe ⟨0, 0, 0⟩ ⟨1, 1, 1⟩ ⟨0, 0, 0⟩).2 =
      hold_point (selected_hold code_order edge_probe
        (vec3_add (node_offset none ⟨0, 0, 0⟩) ⟨0, 0, 0⟩)
        (vec3_add (node_offset none ⟨0, 0, 0⟩) ⟨1, 1, 1⟩)) ⟨0, 0, 0⟩ ⟨1, 1, 1⟩ :=
  ⟨(handle_dirs_precedence edge_probe ⟨0, 0, 0⟩ ⟨1, 1, 1⟩).1,
    (handle_dirs_precedence edge_probe ⟨0, 0, 0⟩ ⟨1, 1, 1⟩).2 none ⟨0, 0, 0⟩ ⟨1, 1, 1⟩
      ⟨0, 0, 0⟩ (by with_unfolding_all decide)⟩

/-- C6 as stated fails: when both bodies expose a probe callback the code
takes the probe branch with the first body as collider (the velocity of the
second body is kept, its candidate position too), while the claim has the
coarse test run, which here stops the second body. -/
theorem both_probes_take_probe_branch :
    (select_probe wall_body drone_body).isSome = true ∧
    (c_physics_handle_collisions twin_probe_world wall_body drone_body
        twin_probe_world.vels).map
        (fun vels => (c_velocity vels 3).map (fun v => (v.velocity, v.computed_pos))) =
      some (some (⟨-1, 0, 0⟩, ⟨3, 0, 0⟩)) ∧
    (claimed_handle_collisions twin_probe_world wall_body drone_body
        twin_probe_world.vels).map
        (fun vels => (c_velocity vels 3).map (fun v => (v.velocity, v.computed_pos))) =
      some (some (⟨0, 0, 0⟩, ⟨4, 0, 0⟩)) := by
  refine ⟨rfl, ?_, ?_⟩ <;> decide

/-- C6, amended.  `c_physics_handle_collisions` takes the probe branch if
and only if at least one of the two bodies exposes a probe callback: with the
first body as collider and the second as moving body when the first exposes
one (whether or not the second does), with the second as collider and the
first as moving body when only the second does; it performs the coarse
intersection test, which involves no probe, exactly when neither does. -/
theorem branch_selection {F : Type} [Scalar F] (w : World F) (c1 c2 : c_rigid_body_t F)
    (vels : List (List (c_velocity_t F))) :
    (∀ cb, c1.costum = some cb →
      c_physics_handle_collisions w c1 c2 vels = probe_branch w.node cb c2 vels) ∧
    (∀ cb, c1.costum = none → c2.costum = some cb →
      c_physics_handle_collisions w c1 c2 vels = probe_branch w.node cb c1 vels) ∧
    (c1.costum = none → c2.costum = none →
      c_physics_handle_collisions w c1 c2 vels =
        some (coarse_branch (w.intersects vels c1 c2) c1 c2 vels)) := by
  refine ⟨?_, ?_, ?_⟩
  · intro cb h
    simp only [c_physics_handle_collisions, select_probe, h]
  · intro cb h1 h2
    simp only [c_physics_handle_collisions, select_probe, h1, h2]
  · intro h1 h2
    simp only [c_physics_handle_collisions, select_probe, h1, h2]

/-- C6, amended, at two bodies that both expose a probe (probe branch, first
body as collider) and at two bodies without probe (coarse test). -/
theorem branch_selection_witness :
    c_physics_handle_collisions twin_probe_world wall_body drone_body twin_probe_world.vels =
      probe_branch twin_probe_world.node clear_probe drone_body twin_probe_world.vels ∧
    c_physics_handle_collisions crash_world ball_body crate_body crash_world.vels =
      some (coarse_branch (crash_world.intersects crash_world.vels ball_body crate_body)
        ball_body crate_body crash_world.vels) :=
  ⟨(branch_selection twin_probe_world wall_body drone_body twin_probe_world.vels).1
      clear_probe rfl,
    (branch_selection crash_world ball_body crate_body crash_world.vels).2.2 rfl rfl⟩

/-- C7 at a failing input, in single precision: the velocity is `(1, 0, 0)`,
two active forces `(10 ^ 8, 0, 0)` and `(-10 ^ 8, 0, 0)` cancel, a third force
is inactive, `dt = 1`.
The code adds the first force to the velocity, `1 + 10 ^ 8` rounds to
`10 ^ 8`, and the second force leaves the velocity `(0, 0, 0)`; the old
velocity plus `dt` times the sum of the forces is `(1, 0, 0)`. -/
theorem force_sum_first_differs :
    (ct_get_at (integrate_all tug_world (Scalar.lit 1)) 0 0).map (fun vc => vc.velocity) =
      some ⟨Scalar.lit 0, Scalar.lit 0, Scalar.lit 0⟩ ∧
    claimed_velocity tug_world.forces drifting.velocity (Scalar.lit 1) =
      ⟨Scalar.lit 1, Scalar.lit 0, Scalar.lit 0⟩ ∧
    (Scalar.lit 1 : F32) ≠ Scalar.lit 0 := by
  decide!

/-- C7, amended, force integration, for every arithmetic.  For the velocity
component in any slot, the first phase of `c_physics_update` sets
`pre_movement_pos` to the current spatial position of its entity; it sets
the velocity by adding to the old velocity, one force after the other in
storage order, the force vector times `dt` of every active force component,
and of no other; it sets `pre_collision_pos` and `computed_pos` to
`pre_movement_pos + velocity * dt` with the new velocity. -/
theorem force_integration {F : Type} [Scalar F] (w : World F) (dt : F) (p i : Nat)
    (vc : c_velocity_t F) (h : ct_get_at w.vels p i = some vc) :
    ∃ vc2, ct_get_at (integrate_all w dt) p i = some vc2 ∧
      vc2.entity = vc.entity ∧
      vc2.pre_movement_pos = w.pos vc.entity ∧
      vc2.velocity = (w.forces.flatten.filter (fun fc => fc.active)).foldl
        (fun vel fc => vec3_add vel (vec3_scale fc.force dt)) vc.velocity ∧
      vc2.pre_collision_pos = vec3_add vc2.pre_movement_pos (vec3_scale vc2.velocity dt) ∧
      vc2.computed_pos = vec3_add vc2.pre_movement_pos (vec3_scale vc2.velocity dt) ∧
      vc2.normal = vc.normal := by
  refine ⟨integrate w dt vc, ?_, rfl, rfl, ?_, rfl, rfl, rfl⟩
  · unfold integrate_all
    rw [ct_get_at_map, h]; rfl
  · exact handle_forces_active_fold w.forces vc.velocity dt

/-- C7, amended, at the moving entity of `tug_world`, in single precision. -/
theorem force_integration_witness :
    ∃ vc2, ct_get_at (integrate_all tug_world (Scalar.lit 1)) 0 0 = some vc2 ∧
      vc2.entity = drifting.entity ∧
      vc2.pre_movement_pos = tug_world.pos drifting.entity ∧
      vc2.velocity = (tug_world.forces.flatten.filter (fun fc => fc.active)).foldl
        (fun vel fc => vec3_add vel (vec3_scale fc.force (Scalar.lit 1))) drifting.velocity ∧
      vc2.pre_collision_pos =
        vec3_add vc2.pre_movement_pos (vec3_scale vc2.velocity (Scalar.lit 1)) ∧
      vc2.computed_pos =
        vec3_add vc2.pre_movement_pos (vec3_scale vc2.velocity (Scalar.lit 1)) ∧
      vc2.normal = drifting.normal :=
  force_integration tug_world (Scalar.lit 1) 0 0 drifting rfl

/-- C8 at a failing input: an entity at the origin whose vertical speed is
`+∞`, no force, no rigid body, `dt = 1`.  After the tick the `y` of the normal
is `NaN` (`∞ - ∞`): the test of line 229 looks at `normal.x` only. -/
theorem commit_keeps_nan_height :
    (c_physics_update runaway_world (Flt.fin 1)).map
      (fun w => (c_velocity w.vels 1).map (fun v => v.normal)) =
    some (some ⟨Flt.fin 0, Flt.nan, Flt.fin 0⟩) := by
  with_unfolding_all decide

/-- C9, grab.  After `candle_grab_mouse(ent, visibility)` slot 0 holds
`(ent, visibility)`, every slot `i` from 1 to 15 holds the pair that slot
`i - 1` held before (so the pair of slot 15 is dropped), nothing is written
past slot 15, the calls made are `SDL_ShowCursor(visibility)` and
`SDL_SetRelativeMouseMode(!visibility)`, and the release anchor
`(mo_x, mo_y)` is the cursor position `(mx, my)`, which is unchanged. -/
theorem candle_grab_mouse_spec (self : candle_t) (ent : entity_t) (visibility : Int) :
    (candle_grab_mouse self ent visibility).mouse_owners 0 = ent ∧
    (candle_grab_mouse self ent visibility).mouse_visible 0 = visibility ∧
    (∀ i, 1 ≤ i → i ≤ 15 →
      (candle_grab_mouse self ent visibility).mouse_owners i = self.mouse_owners (i - 1) ∧
      (candle_grab_mouse self ent visibility).mouse_visible i = self.mouse_visible (i - 1)) ∧
    (∀ i, 16 ≤ i →
      (candle_grab_mouse self ent visibility).mouse_owners i = self.mouse_owners i ∧
      (candle_grab_mouse self ent visibility).mouse_visible i = self.mouse_visible i) ∧
    (candle_grab_mouse self ent visibility).sdl =
      self.sdl ++ [SdlCall.ShowCursor visibility,
        SdlCall.SetRelativeMouseMode (decide (visibility = 0))] ∧
    (candle_grab_mouse self ent visibility).mo_x = self.mx ∧
    (candle_grab_mouse self ent visibility).mo_y = self.my ∧
    (candle_grab_mouse self ent visibility).mx = self.mx ∧
    (candle_grab_mouse self ent visibility).my = self.my := by
  obtain ⟨h1, h2, h3, h4, _, _, h7⟩ := grab_shift_spec 15 self
  simp only [candle_grab_mouse, array_set]
  refine ⟨by simp, by simp, ?_, ?_, by rw [h7], h3, h4, h3, h4⟩
  · intro i hi1 hi2
    have hne : i ≠ 0 := by omega
    simp only [hne, if_false, h1 i, h2 i]
    have : 1 ≤ i ∧ i ≤ 15 := ⟨hi1, hi2⟩
    simp only [this, and_self, if_true]
  · intro i hi
    have hne : i ≠ 0 := by omega
    simp only [hne, if_false, h1 i, h2 i]
    have : ¬ (1 ≤ i ∧ i ≤ 15) := by omega
    simp only [this, if_false, and_self]

/-- C9 at `small_stack`, for slot 2 and the cursor at `(7, 9)`. -/
theorem candle_grab_mouse_spec_witness :
    (candle_grab_mouse small_stack 42 0).mouse_owners 0 = 42 ∧
    ((candle_grab_mouse small_stack 42 0).mouse_owners 2 = small_stack.mouse_owners 1 ∧
      (candle_grab_mouse small_stack 42 0).mouse_visible 2 = small_stack.mouse_visible 1) ∧
    (candle_grab_mouse small_stack 42 0).mo_x = 7 :=
  ⟨(candle_grab_mouse_spec small_stack 42 0).1,
    (candle_grab_mouse_spec small_stack 42 0).2.2.1 2 (by decide) (by decide),
    (candle_grab_mouse_spec small_stack 42 0).2.2.2.2.2.1⟩

/-- C10 at a failing input: the stack is full, as after 16 grabs, and
entity `1`, the first to grab, owns slot 15 and no other slot; after
`candle_release_mouse(1, 0)` slot 15 is still owned by entity `1`. -/
theorem candle_release_mouse_keeps_last_slot :
    full_stack.mouse_owners 15 = 1 ∧ (∀ j, j < 15 → full_stack.mouse_owners j ≠ 1) ∧
    (candle_release_mouse full_stack 1 0).mouse_owners 15 = 1 := by
  refine ⟨by decide, by decide, ?_⟩
  rw [release_found_owners 1 0 full_stack 15 (by decide) (by decide) (by decide)]
  decide


/-- C11, release.  When the first slot owned by `ent` is slot `k`, after
`candle_release_mouse(ent, reset)` every slot below `k` holds the pair
(owner, visibility) it held before, and every slot `i` with `k ≤ i < 15`
holds the pair that slot `i + 1` held before; so the entries keep their
order, and a release of the top owner makes the second entry the top one.
When `ent` owns none of the 16 slots, the two arrays are unchanged. -/
theorem candle_release_mouse_compacts (self : candle_t) (ent : entity_t) (reset : Int) :
    (∀ k, k < 16 → (∀ j, j < k → self.mouse_owners j ≠ ent) → self.mouse_owners k = ent →
      (∀ i, i < k →
        (candle_release_mouse self ent reset).mouse_owners i = self.mouse_owners i ∧
        (candle_release_mouse self ent reset).mouse_visible i = self.mouse_visible i) ∧
      (∀ i, k ≤ i → i < 15 →
        (candle_release_mouse self ent reset).mouse_owners i = self.mouse_owners (i + 1) ∧
        (candle_release_mouse self ent reset).mouse_visible i = self.mouse_visible (i + 1))) ∧
    ((∀ j, j < 16 → self.mouse_owners j ≠ ent) →
      (candle_release_mouse self ent reset).mouse_owners = self.mouse_owners ∧
      (candle_release_mouse self ent reset).mouse_visible = self.mouse_visible) := by
  refine ⟨fun k hk hfirst hown => ⟨fun i hi => ?_, fun i hi1 hi2 => ?_⟩,
    release_absent_slots ent reset self⟩
  · rw [release_found_owners ent reset self k hk hfirst hown i,
      release_found_visible ent reset self k hk hfirst hown i]
    have h : ¬ (k ≤ i ∧ i < 15) := by omega
    simp only [h, if_false, and_self]
  · rw [release_found_owners ent reset self k hk hfirst hown i,
      release_found_visible ent reset self k hk hfirst hown i]
    have h : k ≤ i ∧ i < 15 := ⟨hi1, hi2⟩
    simp only [h, and_self, if_true]

/-- C11 at `small_stack`, whose owners are 10, 11, 12 from the top: the
release of entity 11 (slot 1) keeps slot 0 and moves entity 12 to slot 1; the
release of entity 10 (the top) makes entity 11 the top; the release of entity
99, which owns no slot, changes no slot. -/
theorem candle_release_mouse_compacts_witness :
    ((candle_release_mouse small_stack 11 1).mouse_owners 0 = 10 ∧
      (candle_release_mouse small_stack 11 1).mouse_visible 0 = 1) ∧
    ((candle_release_mouse small_stack 11 1).mouse_owners 1 = 12 ∧
      (candle_release_mouse small_stack 11 1).mouse_visible 1 = 1) ∧
    ((candle_release_mouse small_stack 10 0).mouse_owners 0 = 11 ∧
      (candle_release_mouse small_stack 10 0).mouse_visible 0 = 0) ∧
    ((candle_release_mouse small_stack 99 0).mouse_owners = small_stack.mouse_owners ∧
      (candle_release_mouse small_stack 99 0).mouse_visible = small_stack.mouse_visible) :=
  ⟨((candle_release_mouse_compacts small_stack 11 1).1 1 (by decide) (by decide)
      (by decide)).1 0 (by decide),
    ((candle_release_mouse_compacts small_stack 11 1).1 1 (by decide) (by decide)
      (by decide)).2 1 (by decide) (by decide),
    ((candle_release_mouse_compacts small_stack 10 0).1 0 (by decide) (by decide)
      (by decide)).2 0 (by decide) (by decide),
    (candle_release_mouse_compacts small_stack 99 0).2 (by decide)⟩


/-- C12 at a failing input.  From the state that `candle_new` leaves,
whatever the null entity is, the entities 1 to 16 grab the mouse with the
cursor hidden, then release it in the opposite order.  The stack of the
specification never holds more than 16 entries and is empty at the end, so
the visibility asked for is 1, the cursor visible; the last release applies
the visibility 0 and turns the relative mouse mode on. -/
theorem release_of_last_owner_hides_cursor (entity_null : entity_t) :
    holds_at_most 16 fill_and_drain ∧
    spec_run fill_and_drain = [] ∧
    spec_visibility (spec_run fill_and_drain) = 1 ∧
    cursor_shown (mouse_run (candle_new entity_null) fill_and_drain).sdl = some 0 ∧
    relative_mode (mouse_run (candle_new entity_null) fill_and_drain).sdl = some true :=
  ⟨by decide, by decide, by decide, fill_and_drain_hidden (candle_new entity_null)⟩


/-- C13 at a failing input: the top owner is entity 10, which is not the null
entity 0, and a button goes down; the listeners change nothing and do not
claim the event.  The signal `mouse_press` is emitted with the null target,
not with entity 10. -/
theorem mouse_press_ignores_owner :
    top_owner grabbed_input = 10 ∧
    (handle_event 0 pass_on grabbed_input (SDL_Event.MouseButtonDown 3 4 1)).1.signals =
      [⟨true, 10, signal_t.event_handle, signal_data.event (SDL_Event.MouseButtonDown 3 4 1)⟩,
       ⟨false, 0, signal_t.mouse_press, signal_data.mouse_button_data 3 4 0 1⟩] := by
  decide

/-- C13, amended.  Among the signals that `handle_event` emits, every
`mouse_release` and every `mouse_move` goes to the entity in slot 0 when
that entity is not the null entity, and has the null target when it is; the
slot is read when the signal is emitted, after the listeners of
`event_handle` have run.  Every `mouse_press` has the null target, whatever
the stack holds. -/
theorem handle_event_routing (entity_null : entity_t) (bus : listeners_t)
    (self : candle_input_t) (event : SDL_Event) (e : emission_t)
    (he : e ∈ (handle_event entity_null bus self event).1.signals) :
    (e.signal = signal_t.mouse_release ∨ e.signal = signal_t.mouse_move →
      (top_owner (event_handle_call entity_null bus self event).1.self ≠ entity_null →
        e.target = top_owner (event_handle_call entity_null bus self event).1.self) ∧
      (top_owner (event_handle_call entity_null bus self event).1.self = entity_null →
        e.target = entity_null)) ∧
    (e.signal = signal_t.mouse_press → e.target = entity_null) := by
  have h1 := event_handle_call_signals entity_null bus self event
  have h2 := event_switch_calls entity_null bus
    (event_handle_call entity_null bus self event).1 event
  unfold handle_event at he
  simp only [] at he
  split at he
  · rw [h1.1] at he
    simp only [List.mem_singleton] at he
    subst he
    constructor
    · intro h; split at h <;> simp at h
    · intro h; split at h <;> simp at h
  · rw [h2.1, h1.1] at he
    simp only [List.mem_append, List.mem_singleton] at he
    rcases he with he | he
    · subst he
      constructor
      · intro h; split at h <;> simp at h
      · intro h; split at h <;> simp at h
    · cases event with
      | MouseWheel x y direction =>
        simp only [List.mem_singleton] at he
        subst he
        exact ⟨fun h => by simp at h, fun h => by simp at h⟩
      | MouseButtonUp x y button =>
        simp only [top_owner, List.mem_singleton] at he
        simp only [top_owner]
        split at he
        · next hne => subst he; exact ⟨fun _ => ⟨fun _ => rfl, fun h => absurd h hne⟩, fun h => by simp at h⟩
        · next hne => subst he; exact ⟨fun _ => ⟨fun h => absurd h hne, fun _ => rfl⟩, fun h => by simp at h⟩
      | MouseButtonDown x y button =>
        simp only [List.mem_singleton] at he
        subst he
        exact ⟨fun h => by simp at h, fun _ => rfl⟩
      | MouseMotion x y xrel yrel =>
        simp only [top_owner, List.mem_singleton] at he
        simp only [top_owner]
        split at he
        · next hne => subst he; exact ⟨fun _ => ⟨fun _ => rfl, fun h => absurd h hne⟩, fun h => by simp at h⟩
        · next hne => subst he; exact ⟨fun _ => ⟨fun h => absurd h hne, fun _ => rfl⟩, fun h => by simp at h⟩
      | KeyUp sym =>
        simp only [List.mem_singleton] at he
        subst he
        exact ⟨fun h => by simp at h, fun h => by simp at h⟩
      | KeyDown sym =>
        simp only [List.mem_singleton] at he
        subst he
        exact ⟨fun h => by simp at h, fun h => by simp at h⟩
      | WindowEvent kind => simp at he
      | Other => simp at he


/-- C13, amended, at a button release while entity 10 is the top owner: the
signal `mouse_release` goes to entity 10. -/
theorem handle_event_routing_witness :
    (⟨false, 10, signal_t.mouse_release, signal_data.mouse_button_data 3 4 0 1⟩ : emission_t) ∈
      (handle_event 0 pass_on grabbed_input (SDL_Event.MouseButtonUp 3 4 1)).1.signals ∧
    top_owner (event_handle_call 0 pass_on grabbed_input
      (SDL_Event.MouseButtonUp 3 4 1)).1.self ≠ 0 ∧
    (⟨false, 10, signal_t.mouse_release, signal_data.mouse_button_data 3 4 0 1⟩ :
      emission_t).target =
      top_owner (event_handle_call 0 pass_on grabbed_input
        (SDL_Event.MouseButtonUp 3 4 1)).1.self :=
  ⟨by decide, by decide,
    ((handle_event_routing 0 pass_on grabbed_input (SDL_Event.MouseButtonUp 3 4 1)
      ⟨false, 10, signal_t.mouse_release, signal_data.mouse_button_data 3 4 0 1⟩
      (by decide)).1 (Or.inl rfl)).1 (by decide)⟩


/-- C14 at a failing input: the key F1, whose key code is 1073741882, goes
down while the stack is empty.  The signal `key_down` carries 58, the low
byte of the key code, which is the key code of the colon; the key down of
the colon emits the same signal with the same data. -/
theorem key_down_carries_low_byte :
    (handle_event 0 pass_on idle_input (SDL_Event.KeyDown 1073741882)).1.signals =
      [⟨false, 0, signal_t.event_handle, signal_data.event (SDL_Event.KeyDown 1073741882)⟩,
       ⟨false, 0, signal_t.key_down, signal_data.key 58⟩] ∧
    (handle_event 0 pass_on idle_input (SDL_Event.KeyDown 58)).1.signals =
      [⟨false, 0, signal_t.event_handle, signal_data.event (SDL_Event.KeyDown 58)⟩,
       ⟨false, 0, signal_t.key_down, signal_data.key 58⟩] ∧
    signal_data.key 58 ≠ signal_data.key 1073741882 := by
  decide

/-- C14, amended.  When no listener of `event_handle` claims the event,
`handle_event` returns 0 after the emission of `event_handle` and one more
call, given by the event: a motion emits `mouse_move` with
(xrel, yrel, x, y), to the top owner or, when slot 0 is the null entity,
to the null target; a button down emits `mouse_press` with (x, y, 0, button)
to the null target; a button up emits `mouse_release` with (x, y, 0, button)
to the top owner or to the null target; a scroll emits `mouse_wheel` with
(x, y, direction, middle button) to the null target; a key down or up emits
`key_down` or `key_up` to the null target with the key code narrowed to a
`char`; a resize emits no signal and is passed to `c_window_handle_resize`;
any other event emits no signal and is passed nowhere. -/
theorem handle_event_table (entity_null : entity_t) (bus : listeners_t)
    (self : candle_input_t) (event : SDL_Event)
    (hfree : (event_handle_call entity_null bus self event).2 ≠ 0) :
    (handle_event entity_null bus self event).2 = 0 ∧
    (handle_event entity_null bus self event).1.signals =
      (if top_owner self ≠ entity_null then
        ⟨true, top_owner self, signal_t.event_handle, signal_data.event event⟩
      else ⟨false, entity_null, signal_t.event_handle, signal_data.event event⟩) ::
      (match event with
      | SDL_Event.MouseMotion x y xrel yrel =>
        [if top_owner (event_handle_call entity_null bus self event).1.self ≠ entity_null then
          ⟨true, top_owner (event_handle_call entity_null bus self event).1.self,
            signal_t.mouse_move, signal_data.mouse_move_data xrel yrel x y⟩
        else ⟨false, entity_null, signal_t.mouse_move,
            signal_data.mouse_move_data xrel yrel x y⟩]
      | SDL_Event.MouseButtonDown x y button =>
        [⟨false, entity_null, signal_t.mouse_press, signal_data.mouse_button_data x y 0 button⟩]
      | SDL_Event.MouseButtonUp x y button =>
        [if top_owner (event_handle_call entity_null bus self event).1.self ≠ entity_null then
          ⟨false, top_owner (event_handle_call entity_null bus self event).1.self,
            signal_t.mouse_release, signal_data.mouse_button_data x y 0 button⟩
        else ⟨false, entity_null, signal_t.mouse_release,
            signal_data.mouse_button_data x y 0 button⟩]
      | SDL_Event.MouseWheel x y direction =>
        [⟨false, entity_null, signal_t.mouse_wheel,
          signal_data.mouse_button_data x y direction SDL_BUTTON_MIDDLE⟩]
      | SDL_Event.KeyDown sym =>
        [⟨false, entity_null, signal_t.key_down, signal_data.key (to_char sym)⟩]
      | SDL_Event.KeyUp sym =>
        [⟨false, entity_null, signal_t.key_up, signal_data.key (to_char sym)⟩]
      | SDL_Event.WindowEvent _ => []
      | SDL_Event.Other => []) ∧
    (handle_event entity_null bus self event).1.resizes =
      (if event = SDL_Event.WindowEvent SDL_WINDOWEVENT_RESIZED then [event] else []) := by
  have h1 := event_handle_call_signals entity_null bus self event
  have h2 := event_switch_calls entity_null bus
    (event_handle_call entity_null bus self event).1 event
  unfold handle_event
  simp only [hfree, if_false]
  refine ⟨trivial, ?_, ?_⟩
  · rw [h2.1, h1.1]
    cases event <;> rfl
  · rw [h2.2, h1.2]
    rfl

/-- C14, amended, at a motion to (5, 6) by (1, -1) while entity 10 is the
top owner, and at the key down of the left shift key, whose key code is
1073742049, while the stack is empty. -/
theorem handle_event_table_witness :
    ((handle_event 0 pass_on grabbed_input (SDL_Event.MouseMotion 5 6 1 (-1))).2 = 0 ∧
      (handle_event 0 pass_on grabbed_input (SDL_Event.MouseMotion 5 6 1 (-1))).1.signals =
        [⟨true, 10, signal_t.event_handle,
            signal_data.event (SDL_Event.MouseMotion 5 6 1 (-1))⟩,
          ⟨true, 10, signal_t.mouse_move, signal_data.mouse_move_data 1 (-1) 5 6⟩] ∧
      (handle_event 0 pass_on grabbed_input (SDL_Event.MouseMotion 5 6 1 (-1))).1.resizes =
        []) ∧
    ((handle_event 0 pass_on idle_input (SDL_Event.KeyDown 1073742049)).2 = 0 ∧
      (handle_event 0 pass_on idle_input (SDL_Event.KeyDown 1073742049)).1.signals =
        [⟨false, 0, signal_t.event_handle, signal_data.event (SDL_Event.KeyDown 1073742049)⟩,
          ⟨false, 0, signal_t.key_down, signal_data.key (-31)⟩] ∧
      (handle_event 0 pass_on idle_input (SDL_Event.KeyDown 1073742049)).1.resizes = []) :=
  ⟨handle_event_table 0 pass_on grabbed_input (SDL_Event.MouseMotion 5 6 1 (-1)) (by decide),
    handle_event_table 0 pass_on idle_input (SDL_Event.KeyDown 1073742049) (by decide)⟩


/-- C15 at a failing input, the tick of `lift_world` with `dt = 1`.  The pair
(lift, post) is passed to `c_physics_handle_collisions` because the lift has
a velocity component; the lift exposes a probe, so the probe branch is taken
with the post as the moving body; the post has no velocity component, so the
pointer `vc` is null where `vc->computed_pos` is read, and the tick has no
defined result. -/
theorem probe_branch_null_velocity :
    (c_velocity (integrate_all lift_world 1) lift_body.entity).isSome = true ∧
    (select_probe lift_body post_body).map (fun t => (t.1.entity, t.2.1.entity)) =
      some (4, 5) ∧
    (c_velocity (integrate_all lift_world 1) post_body.entity).isNone = true ∧
    (c_physics_handle_collisions lift_world lift_body post_body
      (integrate_all lift_world 1)).isNone = true ∧
    (c_physics_update lift_world 1).isNone = true := by
  refine ⟨?_, ?_, ?_, ?_, ?_⟩ <;> with_unfolding_all decide

end Candle
